import Mathlib

set_option maxHeartbeats 1000000

/-!
# Verification of the neural-network training engines

Shallow embedding of `models/sgd_neuralnet.py`, `models/backprop_neuralnet.py`
and `models/conv_net.py`.  Machine floats are modelled as exact rationals.
The helper modules of the repository's `common` package
(`forward_functions.py`, `backward_functions.py`, `loss_funcions.py`,
`optimizers.py`) are not among the given sources; the functions taken from
them are modelled from the spec (its section 4.1) and marked as such, and the
exponential map used by sigmoid and softmax is kept as an explicit function
parameter `ef`.  Python `IndexError` on list indexing is modelled by `Option`
via `pyGet`, which follows Python's semantics for negative indices.
-/

/-- A numpy 1-D float array, modelled as a list of rationals. -/
abbrev QVec := List ℚ

/-- A numpy 2-D float array (row major), modelled as a list of rows. -/
abbrev QMat := List QVec

/-- Number of columns of a matrix (length of its first row, `0` if empty). -/
def qcols (M : QMat) : Nat := (M.headD []).length

/-- Column `j` of a matrix (missing entries default to `0`). -/
def qcol (M : QMat) (j : Nat) : QVec := M.map (fun row => row.getD j 0)

/-- Dot product of two vectors (`np.dot` on 1-D arrays). -/
def qdot (u v : QVec) : ℚ := (List.zipWith (· * ·) u v).sum

/-- Matrix product (`np.dot` on 2-D arrays): entry `(i, j)` is the dot
product of row `i` of `A` with column `j` of `B`. -/
def qmul (A B : QMat) : QMat :=
  A.map (fun ra => (List.range (qcols B)).map (fun j => qdot ra (qcol B j)))

/-- Matrix transpose (`.T`). -/
def qtrans (M : QMat) : QMat := (List.range (qcols M)).map (qcol M)

/-- `Z + b` with the bias vector broadcast over the rows of `Z`. -/
def addBias (Z : QMat) (b : QVec) : QMat :=
  Z.map (fun row => List.zipWith (· + ·) row b)

/-- Elementwise map over a matrix. -/
def matMap (f : ℚ → ℚ) (M : QMat) : QMat := M.map (List.map f)

/-- Elementwise combination of two matrices of the same shape. -/
def zipWithMat (f : ℚ → ℚ → ℚ) (A B : QMat) : QMat :=
  List.zipWith (List.zipWith f) A B

/-- Column-wise sums (`np.sum(·, axis=0)`). -/
def colSums (M : QMat) : QVec :=
  M.foldr (fun row acc => List.zipWith (· + ·) row acc) (List.replicate (qcols M) 0)

/-- The two admissible hidden-layer activation kinds; the constructors of both
network classes reject every other string. -/
inductive Act
  | sigmoid
  | relu
deriving DecidableEq

/-- ReLU. -/
def reluQ (x : ℚ) : ℚ := max x 0

/-- Sigmoid, with the exponential map passed as `ef`. -/
def sigmoidQ (ef : ℚ → ℚ) (x : ℚ) : ℚ := 1 / (1 + ef (-x))

/-- Apply the configured hidden-layer activation. -/
def actApply (ef : ℚ → ℚ) : Act → ℚ → ℚ
  | .relu => reluQ
  | .sigmoid => sigmoidQ ef

/-- Modelled from the spec: `forward_middle` of `common/forward_functions.py`
(not among the given sources): pre-activation `A = Z·W + b`, output
`activation(A)`; the `output_A=True` variant also returns `A`. -/
def forward_middle (ef : ℚ → ℚ) (act : Act) (Z W : QMat) (b : QVec) : QMat × QMat :=
  let A := addBias (qmul Z W) b
  (matMap (actApply ef act) A, A)

/-- Maximum entry of a vector (`np.max` of a nonempty 1-D array; `0` if empty). -/
def maxVal : QVec → ℚ
  | [] => 0
  | [x] => x
  | x :: y :: t => max x (maxVal (y :: t))

/-- Modelled from the spec: row-wise softmax, numerically stabilised by
subtracting the row maximum before exponentiating; the exponential map is the
parameter `ef`. -/
def softmaxRow (ef : ℚ → ℚ) (row : QVec) : QVec :=
  let e := row.map (fun x => ef (x - maxVal row))
  e.map (fun x => x / e.sum)

/-- Modelled from the spec: `forward_last_classification` of
`common/forward_functions.py`: affine transform followed by row-wise softmax. -/
def forward_last_classification (ef : ℚ → ℚ) (Z W : QMat) (b : QVec) : QMat :=
  (addBias (qmul Z W) b).map (softmaxRow ef)

/-- One layer of the parameter store `self.params`: the dictionary
`{'W': weight matrix, 'b': bias vector}` kept by both plain networks. -/
structure NLayer where
  W : QMat
  b : QVec
deriving DecidableEq

/-- Python list indexing: nonnegative indices are looked up directly, negative
indices count from the end, and an out-of-range index raises (`none`). -/
def pyGet {α : Type} (xs : List α) (i : Int) : Option α :=
  if 0 ≤ i then xs[i.toNat]?
  else if i.natAbs ≤ xs.length then xs[xs.length - i.natAbs]? else none

/-- The hidden-layer loop of `_predict_onehot`
(`for l in range(self.n_layers-1)`), applied to the given list of layers:
returns the final output together with the caches `Z_intermediate` and
`A_intermediate` in forward order. -/
def forwardMiddles (ef : ℚ → ℚ) (act : Act) : List NLayer → QMat → QMat × List QMat × List QMat
  | [], Z => (Z, [], [])
  | p :: rest, Z =>
    let ZA := forward_middle ef act Z p.W p.b
    let r := forwardMiddles ef act rest ZA.1
    (r.1, ZA.1 :: r.2.1, ZA.2 :: r.2.2)

/-- `BackpropNeuralNet._predict_onehot` with `train_flg=True`: hidden layers
are `params[0] .. params[n_layers-2]` (i.e. all but the last entry), the output
layer is `params[n_layers-1]`. -/
def predictOnehotTrain (ef : ℚ → ℚ) (act : Act) (ps : List NLayer) (X : QMat) :
    Option (QMat × List QMat × List QMat) :=
  match pyGet ps ((ps.length : Int) - 1) with
  | none => none
  | some pl =>
    let r := forwardMiddles ef act ps.dropLast X
    some (forward_last_classification ef r.1 pl.W pl.b, r.2.1, r.2.2)

/-- `_predict_onehot` without caches (the `train_flg=False` path, and the whole
of `SGDNeuralNet._predict_onehot`, which runs the same loop without caching). -/
def predictOnehot (ef : ℚ → ℚ) (act : Act) (ps : List NLayer) (X : QMat) : Option QMat :=
  (predictOnehotTrain ef act ps X).map (fun r => r.1)

/-- Modelled from the spec: `softmax_loss_backward` of
`common/backward_functions.py`: `dA = (Y − T) / batch_size`. -/
def softmax_loss_backward (Y T : QMat) : QMat :=
  zipWithMat (fun y t => (y - t) / (Y.length : ℚ)) Y T

/-- Modelled from the spec: bias gradient is the column-wise sum of `dA`. -/
def affine_backward_bias (dA : QMat) : QVec := colSums dA

/-- Modelled from the spec: weight gradient is `Zprevᵀ · dA`. -/
def affine_backward_weight (dA Zprev : QMat) : QMat := qmul (qtrans Zprev) dA

/-- Modelled from the spec: upstream input gradient is `dA · Wᵀ`. -/
def affine_backward_zprev (dA W : QMat) : QMat := qmul dA (qtrans W)

/-- Modelled from the spec: ReLU backward zeroes the gradient where the cached
pre-activation `A` is non-positive. -/
def relu_backward (dZ A : QMat) : QMat :=
  zipWithMat (fun dz a => if 0 < a then dz else 0) dZ A

/-- Modelled from the spec: sigmoid backward is `dZ ⊙ Z ⊙ (1 − Z)` with `Z`
the cached sigmoid output. -/
def sigmoid_backward (dZ Z : QMat) : QMat :=
  zipWithMat (fun dz z => dz * z * (1 - z)) dZ Z

/-- The hidden-layer loop of `gradient_backpropagation`
(`for l in range(self.n_layers-2, -1, -1)`), counting `l` down to `0`; at the
step for `l+1` the index `(l+1)-1 = l` is used for `Z_intermediate[l-1]`.
Gradients are collected in forward layer order. -/
def backMiddleStep (act : Act) (ps : List NLayer) (X : QMat) (Zs As : List QMat) :
    Nat → QMat → List NLayer → Option (List NLayer)
  | 0, dZprev, acc =>
    match (match act with
           | .relu => (pyGet As 0).map (relu_backward dZprev)
           | .sigmoid => (pyGet Zs 0).map (sigmoid_backward dZprev)) with
    | none => none
    | some dA => some (⟨affine_backward_weight dA X, affine_backward_bias dA⟩ :: acc)
  | l + 1, dZprev, acc =>
    match (match act with
           | .relu => (pyGet As ((l : Int) + 1)).map (relu_backward dZprev)
           | .sigmoid => (pyGet Zs ((l : Int) + 1)).map (sigmoid_backward dZprev)) with
    | none => none
    | some dA =>
      match pyGet Zs (l : Int), pyGet ps ((l : Int) + 1) with
      | some Zp, some pl =>
        backMiddleStep act ps X Zs As l (affine_backward_zprev dA pl.W)
          (⟨affine_backward_weight dA Zp, affine_backward_bias dA⟩ :: acc)
      | _, _ => none

/-- `BackpropNeuralNet.gradient_backpropagation`: forward pass with caches,
output-layer backward via the fused softmax-loss gradient, then the
hidden-layer loop.  The access `Z_intermediate[self.n_layers-2]` is the failure
point for one-layer networks. -/
def gradient_backpropagation (ef : ℚ → ℚ) (act : Act) (ps : List NLayer) (X T : QMat) :
    Option (List NLayer) :=
  match predictOnehotTrain ef act ps X with
  | none => none
  | some (Y, Zs, As) =>
    let dA := softmax_loss_backward Y T
    let db := affine_backward_bias dA
    match pyGet Zs ((ps.length : Int) - 2) with
    | none => none
    | some Zlast =>
      let dW := affine_backward_weight dA Zlast
      match pyGet ps ((ps.length : Int) - 1) with
      | none => none
      | some plast =>
        let dZprev := affine_backward_zprev dA plast.W
        if 2 ≤ ps.length then
          match backMiddleStep act ps X Zs As (ps.length - 2) dZprev [] with
          | none => none
          | some gmids => some (gmids ++ [⟨dW, db⟩])
        else some [⟨dW, db⟩]

/-- `BackpropNeuralNet.gradient_backpropagation` as a transformer of the
`self.params` state: the method body contains no assignment to `self.params`,
so the final parameter state is the input state unchanged. -/
def gradientBackpropagationState (ef : ℚ → ℚ) (act : Act) (ps : List NLayer) (X T : QMat) :
    Option (List NLayer) × List NLayer :=
  (gradient_backpropagation ef act ps X T, ps)

/-- The step size `h = 1e-4` of the numerical gradient engine. -/
def hstep : ℚ := 1 / 10000

/-- `P_ravel + np.eye(n)[idx] * d`: add `d` to component `idx`, leave every
other component unchanged (adding `0`). -/
def perturb : QVec → Nat → ℚ → QVec
  | [], _, _ => []
  | x :: xs, 0, d => (x + d) :: xs
  | x :: xs, j + 1, d => x :: perturb xs j d

/-- `v.reshape(P.shape)`: cut the flat vector `v` into rows shaped like `P`. -/
def reshapeLike : QMat → QVec → QMat
  | [], _ => []
  | row :: rows, v => v.take row.length :: reshapeLike rows (v.drop row.length)

/-- `self.params[l]['W'] = Wn` (no-op when `l` is out of range; every call
site uses an in-range `l`). -/
def setParamW : List NLayer → Nat → QMat → List NLayer
  | [], _, _ => []
  | p :: ps, 0, Wn => ⟨Wn, p.b⟩ :: ps
  | p :: ps, l + 1, Wn => p :: setParamW ps l Wn

/-- `self.params[l]['b'] = bn` (no-op when `l` is out of range). -/
def setParamB : List NLayer → Nat → QVec → List NLayer
  | [], _, _ => []
  | p :: ps, 0, bn => ⟨p.W, bn⟩ :: ps
  | p :: ps, l + 1, bn => p :: setParamB ps l bn

/-- `self.params[l]` (with an empty layer as default out of range). -/
def getLayerD (ps : List NLayer) (l : Nat) : NLayer := ps.getD l ⟨[], []⟩

/-- The per-component loop of `SGDNeuralNet._numerical_gradient` for a weight
matrix: perturb component `idx` of the raveled copy `P` by `±h` inside the
parameter state, evaluate the loss on the whole perturbed state both times,
record the central difference, and restore the original `P`.  `loss` is the
closure `self._loss(X, T)` as a function of the current parameter state; the
loss functions live in `common/loss_funcions.py`, outside the given sources. -/
def numGradLoopW (loss : List NLayer → ℚ) (l : Nat) (P : QMat) :
    List Nat → List NLayer → QVec × List NLayer
  | [], ps => ([], ps)
  | idx :: rest, ps =>
    let fxh1 := loss (setParamW ps l (reshapeLike P (perturb P.flatten idx hstep)))
    let fxh2 := loss (setParamW ps l (reshapeLike P (perturb P.flatten idx (-hstep))))
    let r := numGradLoopW loss l P rest (setParamW ps l P)
    ((fxh1 - fxh2) / (2 * hstep) :: r.1, r.2)

/-- The same loop for a bias vector: `np.ravel` and `reshape` are the identity
on 1-D arrays. -/
def numGradLoopB (loss : List NLayer → ℚ) (l : Nat) (P : QVec) :
    List Nat → List NLayer → QVec × List NLayer
  | [], ps => ([], ps)
  | idx :: rest, ps =>
    let fxh1 := loss (setParamB ps l (perturb P idx hstep))
    let fxh2 := loss (setParamB ps l (perturb P idx (-hstep)))
    let r := numGradLoopB loss l P rest (setParamB ps l P)
    ((fxh1 - fxh2) / (2 * hstep) :: r.1, r.2)

/-- `SGDNeuralNet._numerical_gradient(X, T, 'W', l)`: gradient of the layer-`l`
weight matrix, reshaped back to the matrix shape, together with the final
parameter state. -/
def numericalGradientW (loss : List NLayer → ℚ) (ps : List NLayer) (l : Nat) :
    QMat × List NLayer :=
  let P := (getLayerD ps l).W
  let r := numGradLoopW loss l P (List.range P.flatten.length) ps
  (reshapeLike P r.1, r.2)

/-- `SGDNeuralNet._numerical_gradient(X, T, 'b', l)`. -/
def numericalGradientB (loss : List NLayer → ℚ) (ps : List NLayer) (l : Nat) :
    QVec × List NLayer :=
  let P := (getLayerD ps l).b
  let r := numGradLoopB loss l P (List.range P.length) ps
  (r.1, r.2)

/-- The layer loop of `SGDNeuralNet.numerical_gradient_all`: for each layer
`l`, first the weight gradient, then the bias gradient, threading the mutable
parameter state. -/
def numGradAllLoop (loss : List NLayer → ℚ) :
    List Nat → List NLayer → List NLayer × List NLayer
  | [], ps => ([], ps)
  | l :: rest, ps =>
    let rW := numericalGradientW loss ps l
    let rB := numericalGradientB loss rW.2 l
    let r := numGradAllLoop loss rest rB.2
    (⟨rW.1, rB.1⟩ :: r.1, r.2)

/-- `SGDNeuralNet.numerical_gradient_all` as a transformer of `self.params`
(`self.n_layers` equals the length of `self.params` by construction). -/
def numericalGradientAll (loss : List NLayer → ℚ) (ps : List NLayer) :
    List NLayer × List NLayer :=
  numGradAllLoop loss (List.range ps.length) ps

/-- The gradient layer produced for layer `l` by the numerical engine when the
parameter state is `ps` (used to describe the output of the loop). -/
def gradLayerAt (loss : List NLayer → ℚ) (ps : List NLayer) (l : Nat) : NLayer :=
  ⟨(numericalGradientW loss ps l).1, (numericalGradientB loss ps l).1⟩

/-- `W - lr * G`, elementwise. -/
def updLayerW (lr : ℚ) (W G : QMat) : QMat := zipWithMat (fun w g => w - lr * g) W G

/-- `b - lr * g`, elementwise. -/
def updVec (lr : ℚ) (b g : QVec) : QVec := List.zipWith (fun w gg => w - lr * gg) b g

/-- The layer loop of `update_parameters` (identical in `SGDNeuralNet` and
`BackpropNeuralNet`): `params[l]['W'] -= lr * grads[l]['W']` and then
`params[l]['b'] -= lr * grads[l]['b']`. -/
def updLoop (lr : ℚ) (grads : List NLayer) : List Nat → List NLayer → Option (List NLayer)
  | [], ps => some ps
  | l :: rest, ps =>
    match pyGet grads (l : Int) with
    | none => none
    | some g =>
      let ps1 := setParamW ps l (updLayerW lr (getLayerD ps l).W g.W)
      let ps2 := setParamB ps1 l (updVec lr (getLayerD ps1 l).b g.b)
      updLoop lr grads rest ps2

/-- `update_parameters(grads)` of both plain networks. -/
def update_parameters (lr : ℚ) (ps grads : List NLayer) : Option (List NLayer) :=
  updLoop lr grads (List.range ps.length) ps

/-- An all-zero gradient set shaped like the parameter store `ps`. -/
def zeroGradsLike (ps : List NLayer) : List NLayer :=
  ps.map (fun p => ⟨matMap (fun _ => 0) p.W, p.b.map (fun _ => 0)⟩)

/-- `np.argmax` of a 1-D array: index of the first occurrence of the maximum
(`0` on an empty array, where numpy would raise). -/
def argmaxIdx : QVec → Nat
  | [] => 0
  | [_] => 0
  | x :: y :: t => if maxVal (y :: t) ≤ x then 0 else argmaxIdx (y :: t) + 1

/-- `np.sum(Y_label == T_label)` for the two arg-max label lists. -/
def countMatches (Yl Tl : List Nat) : Nat :=
  (List.zipWith (fun a b => a == b) Yl Tl).count true

/-- The shared accuracy computation: fraction of rows whose predicted arg-max
index equals the target arg-max index, divided by the input row count. -/
def accuracyOf (Y T : QMat) (nrows : Nat) : ℚ :=
  (countMatches (Y.map argmaxIdx) (T.map argmaxIdx) : ℚ) / (nrows : ℚ)

/-- `SGDNeuralNet.accuracy` (identical in `BackpropNeuralNet`) for a target
batch that is already one-hot (2-D), where `_one_hot_encoding` returns its
argument unchanged. -/
def SGDaccuracy (ef : ℚ → ℚ) (act : Act) (ps : List NLayer) (X Tq : QMat) : Option ℚ :=
  (predictOnehot ef act ps X).map (fun Y => accuracyOf Y Tq X.length)

/-- Modelled from the spec: an opaque composed layer of `ConvolutionNet`
(the layer classes live outside the given sources), implementing the layer
contract: `forward`, the two-argument `backward(Y, T)` used on the last layer
and the one-argument `backward(dZ)` used elsewhere; each backward returns the
downstream gradient together with the gradient set it stores in the layer. -/
structure CLayer where
  inputShape : Nat
  outputShape : Nat
  forward : QMat → QMat
  backwardLast : QMat → QMat → QMat × NLayer
  backwardMid : QMat → QMat × NLayer

/-- The forward loop of `ConvolutionNet._predict_onehot`. -/
def convForward (layers : List CLayer) (X : QMat) : QMat :=
  layers.foldl (fun Z ly => ly.forward Z) X

/-- `ConvolutionNet.accuracy` for an already one-hot target batch. -/
def convAccuracy (layers : List CLayer) (X Tq : QMat) : ℚ :=
  accuracyOf (convForward layers X) Tq X.length

/-- The hidden-layer backward loop of `ConvolutionNet.gradient_backpropagation`
over the reversed list of non-final layers, collecting each layer's stored
gradients in forward order. -/
def convBackLoop : List CLayer → QMat → List NLayer → List NLayer
  | [], _, acc => acc
  | ly :: rest, dZ, acc =>
    let r := ly.backwardMid dZ
    convBackLoop rest r.1 (r.2 :: acc)

/-- `ConvolutionNet.gradient_backpropagation(X, T)`: forward pass, backward
pass through every layer.  The Python method body has no `return` statement,
so its value is `None` (`none` here); the gradients are only stored inside the
layers (returned as the second component). -/
def convGradientBackpropagation (layers : List CLayer) (X T : QMat) :
    Option (List NLayer) × List NLayer :=
  let Y := convForward layers X
  match pyGet layers ((layers.length : Int) - 1) with
  | none => (none, [])
  | some lylast =>
    let r := lylast.backwardLast Y T
    (none, convBackLoop (layers.dropLast).reverse r.1 [] ++ [r.2])

/-- The shape interface of a `ConvolutionNet` layer used by
`_initialize_parameters` (the layers' classes are outside the given sources). -/
structure LayerSpec where
  inputShape : Nat
  outputShape : Nat
deriving DecidableEq

/-- Modelled from the spec: a layer's `initialize_parameters(input_shape)`
allocates its parameters for the given input width and fails fast with a
descriptive error when it does not match the layer's declared input width
(spec section 7: configuration errors are raised immediately at construction). -/
def initializeLayer (ly : LayerSpec) (inputShape : Nat) : Except String LayerSpec :=
  if inputShape = ly.inputShape then Except.ok ly
  else Except.error "shape mismatch between adjacent layers"

/-- The layer loop of `ConvolutionNet._initialize_parameters`: the first layer
is initialised with its own `input_shape`, every later layer with the previous
layer's `output_shape`. -/
def convInitLoop : Option LayerSpec → List LayerSpec → Except String (List LayerSpec)
  | _, [] => Except.ok []
  | none, ly :: rest =>
    match initializeLayer ly ly.inputShape with
    | Except.error e => Except.error e
    | Except.ok ly2 =>
      match convInitLoop (some ly2) rest with
      | Except.error e => Except.error e
      | Except.ok r => Except.ok (ly2 :: r)
  | some prev, ly :: rest =>
    match initializeLayer ly prev.outputShape with
    | Except.error e => Except.error e
    | Except.ok ly2 =>
      match convInitLoop (some ly2) rest with
      | Except.error e => Except.error e
      | Except.ok r => Except.ok (ly2 :: r)

/-- `ConvolutionNet._initialize_parameters` (restricted to its shape checks). -/
def convInitializeParameters (layers : List LayerSpec) : Except String (List LayerSpec) :=
  convInitLoop none layers

/-- Adjacent layers have matching widths: output width of each layer equals
the declared input width of the next. -/
def adjacentConsistent : List LayerSpec → Bool
  | [] => true
  | [_] => true
  | a :: b :: rest => (a.outputShape == b.inputShape) && adjacentConsistent (b :: rest)

/-- The chain check starting from a given incoming width. -/
def chainOK (w : Nat) : List LayerSpec → Bool
  | [] => true
  | ly :: rest => (w == ly.inputShape) && chainOK ly.outputShape rest

/-- Fancy indexing `X[mask]`: the selected rows in mask order; any
out-of-range index raises (`none`). -/
def rowsAt (X : QMat) : List Nat → Option QMat
  | [] => some []
  | i :: is =>
    match X[i]?, rowsAt X is with
    | some r, some rs => some (r :: rs)
    | _, _ => none

/-- `select_minibatch` (identical in all three networks): `mask` models the
result of `np.random.choice(train_size, batch_size)`, a draw of `batch_size`
indices uniformly at random with replacement from `[0, train_size)`; the
minibatch is `(X[mask], T[mask])` and the inputs are left untouched. -/
def select_minibatch (mask : List Nat) (X T : QMat) : Option (QMat × QMat) :=
  match rowsAt X mask, rowsAt T mask with
  | some Xb, some Tb => some (Xb, Tb)
  | _, _ => none

/-- Insert into a sorted list of labels. -/
def insertSorted (x : Int) : List Int → List Int
  | [] => [x]
  | y :: ys => if x ≤ y then x :: y :: ys else y :: insertSorted x ys

/-- Insertion sort on labels. -/
def sortInts (l : List Int) : List Int := l.foldr insertSorted []

/-- Modelled from the spec: the category list `categories_[0]` learned by
sklearn's `OneHotEncoder.fit` on a 1-D label vector: the distinct label values
in sorted order. -/
def categoriesOf (T : List Int) : List Int := sortInts T.dedup

/-- The one-hot row of label `t` over the category list `cats`. -/
def oneHotRow (cats : List Int) (t : Int) : QVec :=
  cats.map (fun c => if c = t then 1 else 0)

/-- `_one_hot_encoding` on a 1-D label vector: fit the encoder (kept as the
first component, modelling `self.one_hot_encoder_`) and transform each label
into its one-hot row. -/
def one_hot_encoding (T : List Int) : List Int × QMat :=
  (categoriesOf T, T.map (oneHotRow (categoriesOf T)))

/-- `_one_hot_encoding_reverse`: arg-max each row, then look the index up in
the stored category list. -/
def one_hot_encoding_reverse (cats : List Int) (M : QMat) : List Int :=
  M.map (fun row => cats.getD (argmaxIdx row) 0)

/-- `M` has `r` rows, each of length `c`. -/
def MatShape (M : QMat) (r c : Nat) : Prop :=
  M.length = r ∧ ∀ row ∈ M, row.length = c

/-- Two matrices have identical row-by-row shape. -/
def SameShapeM (A B : QMat) : Prop := A.map List.length = B.map List.length

/-- A gradient layer is shaped identically to a parameter layer. -/
def LayerAligned (g p : NLayer) : Prop := SameShapeM g.W p.W ∧ g.b.length = p.b.length

/-- The parameter-store shape invariant: starting from input width `d0`, the
successive layers have the output widths `ds`. -/
def ParamsShape : List NLayer → Nat → List Nat → Prop
  | [], _, [] => True
  | p :: ps, d0, d1 :: ds => MatShape p.W d0 d1 ∧ p.b.length = d1 ∧ ParamsShape ps d1 ds
  | _, _, _ => False

/-- A list of matrices, all with `r` rows, with the column counts `cs`. -/
def MatsShape : List QMat → Nat → List Nat → Prop
  | [], _, [] => True
  | M :: Ms, r, c :: cs => MatShape M r c ∧ MatsShape Ms r cs
  | _, _, _ => False

/-- The effect of one `update_parameters` step on one layer. -/
def updL (lr : ℚ) (p g : NLayer) : NLayer := ⟨updLayerW lr p.W g.W, updVec lr p.b g.b⟩

/-- A concrete loss function used to instantiate the abstract
`self._loss(X, T)` closure in witnesses: the sum of all parameter entries. -/
def lossEx : List NLayer → ℚ := fun qs => (qs.map (fun p => p.W.flatten.sum + p.b.sum)).sum

/-- A concrete one-layer parameter store. -/
def psEx : List NLayer := [⟨[[1, 2]], [5]⟩]

/-- A concrete gradient set shaped like `psEx`. -/
def gradsEx : List NLayer := [⟨[[1, 1]], [1]⟩]

/-- A concrete stand-in for the exponential map in witnesses. -/
def efEx : ℚ → ℚ := fun x => x + 2

/-- The hidden layers of a concrete 2-input, 3-hidden, 2-output network. -/
def midsEx : List NLayer := [⟨[[1, 1, 1], [1, 1, 1]], [0, 0, 0]⟩]

/-- The output layer of the concrete network. -/
def plastEx : NLayer := ⟨[[1, 0], [0, 1], [0, 0]], [0, 0]⟩

/-- A concrete one-sample input batch. -/
def XEx : QMat := [[1, 2]]

/-- A concrete one-hot target batch. -/
def TEx : QMat := [[1, 0]]

/-- A concrete 2-input, 2-output single-layer parameter store for the
accuracy witness. -/
def accPsEx : List NLayer := [⟨[[1, 0], [0, 1]], [0, 0]⟩]

/-- A concrete opaque layer (identity forward, zero-shaped stored gradients)
for the convolution-net counterexample. -/
def clEx : CLayer :=
  ⟨1, 1, fun Z => Z, fun Y _T => (Y, ⟨[[0]], [0]⟩), fun dZ => (dZ, ⟨[[0]], [0]⟩)⟩

/-! ## Basic shape lemmas -/

theorem qcols_eq {M : QMat} {r c : Nat} (h : MatShape M r c) (hr : 0 < r) : qcols M = c := by
  obtain ⟨hlen, hrow⟩ := h
  cases M with
  | nil => simp at hlen; omega
  | cons row rest => simpa [qcols] using hrow row (by simp)

theorem qmul_shape (A B : QMat) : MatShape (qmul A B) A.length (qcols B) := by
  constructor
  · simp [qmul]
  · intro row hrow
    simp [qmul] at hrow
    obtain ⟨ra, _, rfl⟩ := hrow
    simp

theorem qtrans_shape {M : QMat} {r c : Nat} (h : MatShape M r c) (hr : 0 < r) :
    MatShape (qtrans M) c r := by
  constructor
  · simp [qtrans, qcols_eq h hr]
  · intro row hrow
    simp [qtrans] at hrow
    obtain ⟨j, _, rfl⟩ := hrow
    simp [qcol, h.1]

theorem addBias_shape {Z : QMat} {r c : Nat} {b : QVec} (h : MatShape Z r c)
    (hb : b.length = c) : MatShape (addBias Z b) r c := by
  constructor
  · simp [addBias, h.1]
  · intro row hrow
    simp [addBias] at hrow
    obtain ⟨ra, hmem, rfl⟩ := hrow
    simp [h.2 ra hmem, hb]

theorem matMap_shape {M : QMat} {r c : Nat} (h : MatShape M r c) (f : ℚ → ℚ) :
    MatShape (matMap f M) r c := by
  constructor
  · simp [matMap, h.1]
  · intro row hrow
    simp [matMap] at hrow
    obtain ⟨ra, hmem, rfl⟩ := hrow
    simp [h.2 ra hmem]

theorem mem_zipWith_exists {α β γ : Type} {f : α → β → γ} :
    ∀ {A : List α} {B : List β} {x : γ}, x ∈ List.zipWith f A B →
      ∃ a b, a ∈ A ∧ b ∈ B ∧ x = f a b
  | [], _, x, h => by simp at h
  | _ :: _, [], x, h => by simp at h
  | a :: A, b :: B, x, h => by
    rcases (by simpa using h : x = f a b ∨ x ∈ List.zipWith f A B) with h1 | h2
    · exact ⟨a, b, by simp, by simp, h1⟩
    · obtain ⟨a2, b2, ha, hb, rfl⟩ := mem_zipWith_exists h2
      exact ⟨a2, b2, by simp [ha], by simp [hb], rfl⟩

theorem zipWithMat_shape {A B : QMat} {r c : Nat} (hA : MatShape A r c)
    (hB : MatShape B r c) (f : ℚ → ℚ → ℚ) : MatShape (zipWithMat f A B) r c := by
  constructor
  · simp [zipWithMat, hA.1, hB.1]
  · intro row hrow
    obtain ⟨a, b, ha, hb, rfl⟩ := mem_zipWith_exists hrow
    simp [hA.2 a ha, hB.2 b hb]

theorem foldr_zipAdd_length : ∀ (M : QMat) (acc : QVec) (c : Nat),
    (∀ row ∈ M, row.length = c) → acc.length = c →
    (M.foldr (fun row a => List.zipWith (· + ·) row a) acc).length = c
  | [], _, _, _, hacc => hacc
  | row :: rest, acc, c, hrows, hacc => by
    have ih := foldr_zipAdd_length rest acc c (fun r h => hrows r (by simp [h])) hacc
    simp [List.length_zipWith, ih, hrows row (by simp)]

theorem colSums_length {M : QMat} {r c : Nat} (h : MatShape M r c) (hr : 0 < r) :
    (colSums M).length = c := by
  simpa [colSums] using
    foldr_zipAdd_length M (List.replicate (qcols M) 0) c h.2 (by simp [qcols_eq h hr])

theorem forward_last_shape {Z W : QMat} {b : QVec} {r k c : Nat} (ef : ℚ → ℚ)
    (hZ : MatShape Z r k) (hW : MatShape W k c) (hb : b.length = c) (hk : 0 < k) :
    MatShape (forward_last_classification ef Z W b) r c := by
  have h1 : MatShape (qmul Z W) r c := by
    have := qmul_shape Z W
    rwa [hZ.1, qcols_eq hW hk] at this
  have h2 := addBias_shape h1 hb
  constructor
  · simpa [forward_last_classification] using h2.1
  · intro row hrow
    simp [forward_last_classification] at hrow
    obtain ⟨ra, hmem, rfl⟩ := hrow
    simp [softmaxRow, h2.2 ra hmem]

theorem forward_middle_shape {Z W : QMat} {b : QVec} {r k c : Nat} (ef : ℚ → ℚ) (act : Act)
    (hZ : MatShape Z r k) (hW : MatShape W k c) (hb : b.length = c) (hk : 0 < k) :
    MatShape (forward_middle ef act Z W b).1 r c ∧
      MatShape (forward_middle ef act Z W b).2 r c := by
  have h1 : MatShape (qmul Z W) r c := by
    have := qmul_shape Z W
    rwa [hZ.1, qcols_eq hW hk] at this
  have h2 := addBias_shape h1 hb
  exact ⟨matMap_shape h2 _, h2⟩

theorem map_length_of_shape : ∀ {A : QMat} {r c : Nat}, MatShape A r c →
    A.map List.length = List.replicate r c
  | [], _, _, h => by simp [← h.1]
  | row :: rest, r, c, h => by
    obtain ⟨hlen, hrow⟩ := h
    cases r with
    | zero => simp at hlen
    | succ r =>
      have ih := @map_length_of_shape rest r c
        ⟨by simpa using hlen, fun rr hh => hrow rr (by simp [hh])⟩
      simp [List.replicate_succ, ih, hrow row (by simp)]

theorem sameShapeM_of_shapes {A B : QMat} {r c : Nat} (hA : MatShape A r c)
    (hB : MatShape B r c) : SameShapeM A B :=
  (map_length_of_shape hA).trans (map_length_of_shape hB).symm

/-! ## `pyGet` lemmas -/

theorem pyGet_natCast {α : Type} (xs : List α) (n : Nat) : pyGet xs (n : Int) = xs[n]? := by
  simp [pyGet]

theorem pyGet_nil_neg_one {α : Type} : pyGet ([] : List α) (-1) = none := by
  norm_num [pyGet]

/-! ## Parameter-state lemmas -/

theorem setParamW_length : ∀ (ps : List NLayer) (l : Nat) (Wn : QMat),
    (setParamW ps l Wn).length = ps.length
  | [], _, _ => rfl
  | _ :: _, 0, _ => rfl
  | p :: ps, l + 1, Wn => by simp [setParamW, setParamW_length ps l Wn]

theorem setParamB_length : ∀ (ps : List NLayer) (l : Nat) (bn : QVec),
    (setParamB ps l bn).length = ps.length
  | [], _, _ => rfl
  | _ :: _, 0, _ => rfl
  | p :: ps, l + 1, bn => by simp [setParamB, setParamB_length ps l bn]

theorem setParamW_setParamW : ∀ (ps : List NLayer) (l : Nat) (A B : QMat),
    setParamW (setParamW ps l A) l B = setParamW ps l B
  | [], _, _, _ => rfl
  | _ :: _, 0, _, _ => rfl
  | p :: ps, l + 1, A, B => by simp [setParamW, setParamW_setParamW ps l A B]

theorem setParamB_setParamB : ∀ (ps : List NLayer) (l : Nat) (a b : QVec),
    setParamB (setParamB ps l a) l b = setParamB ps l b
  | [], _, _, _ => rfl
  | _ :: _, 0, _, _ => rfl
  | p :: ps, l + 1, a, b => by simp [setParamB, setParamB_setParamB ps l a b]

theorem getLayerD_cons_succ (p : NLayer) (ps : List NLayer) (l : Nat) :
    getLayerD (p :: ps) (l + 1) = getLayerD ps l := by
  simp [getLayerD]

theorem setParamW_self : ∀ (ps : List NLayer) (l : Nat),
    setParamW ps l ((getLayerD ps l).W) = ps
  | [], _ => rfl
  | _ :: _, 0 => rfl
  | p :: ps, l + 1 => by
    rw [getLayerD_cons_succ]
    show p :: setParamW ps l ((getLayerD ps l).W) = p :: ps
    rw [setParamW_self ps l]

theorem setParamB_self : ∀ (ps : List NLayer) (l : Nat),
    setParamB ps l ((getLayerD ps l).b) = ps
  | [], _ => rfl
  | _ :: _, 0 => rfl
  | p :: ps, l + 1 => by
    rw [getLayerD_cons_succ]
    show p :: setParamB ps l ((getLayerD ps l).b) = p :: ps
    rw [setParamB_self ps l]

theorem getLayerD_setParamW_self : ∀ (ps : List NLayer) (l : Nat) (Wn : QMat),
    l < ps.length → getLayerD (setParamW ps l Wn) l = ⟨Wn, (getLayerD ps l).b⟩
  | [], _, _, h => by simp at h
  | _ :: _, 0, _, _ => rfl
  | p :: ps, l + 1, Wn, h => by
    show getLayerD (p :: setParamW ps l Wn) (l + 1) = _
    rw [getLayerD_cons_succ, getLayerD_cons_succ]
    exact getLayerD_setParamW_self ps l Wn (by simpa using h)

theorem getLayerD_setParamB_self : ∀ (ps : List NLayer) (l : Nat) (bn : QVec),
    l < ps.length → getLayerD (setParamB ps l bn) l = ⟨(getLayerD ps l).W, bn⟩
  | [], _, _, h => by simp at h
  | _ :: _, 0, _, _ => rfl
  | p :: ps, l + 1, bn, h => by
    show getLayerD (p :: setParamB ps l bn) (l + 1) = _
    rw [getLayerD_cons_succ, getLayerD_cons_succ]
    exact getLayerD_setParamB_self ps l bn (by simpa using h)

theorem getLayerD_setParamW_ne : ∀ (ps : List NLayer) (l m : Nat) (Wn : QMat), l ≠ m →
    getLayerD (setParamW ps l Wn) m = getLayerD ps m
  | [], _, _, _, _ => rfl
  | _ :: _, 0, 0, _, h => absurd rfl h
  | p :: ps, 0, m + 1, Wn, _ => by
    show getLayerD (⟨Wn, p.b⟩ :: ps) (m + 1) = _
    rw [getLayerD_cons_succ, getLayerD_cons_succ]
  | p :: ps, l + 1, 0, Wn, _ => rfl
  | p :: ps, l + 1, m + 1, Wn, h => by
    show getLayerD (p :: setParamW ps l Wn) (m + 1) = _
    rw [getLayerD_cons_succ, getLayerD_cons_succ]
    exact getLayerD_setParamW_ne ps l m Wn (by omega)

theorem getLayerD_setParamB_ne : ∀ (ps : List NLayer) (l m : Nat) (bn : QVec), l ≠ m →
    getLayerD (setParamB ps l bn) m = getLayerD ps m
  | [], _, _, _, _ => rfl
  | _ :: _, 0, 0, _, h => absurd rfl h
  | p :: ps, 0, m + 1, bn, _ => by
    show getLayerD (⟨p.W, bn⟩ :: ps) (m + 1) = _
    rw [getLayerD_cons_succ, getLayerD_cons_succ]
  | p :: ps, l + 1, 0, bn, _ => rfl
  | p :: ps, l + 1, m + 1, bn, h => by
    show getLayerD (p :: setParamB ps l bn) (m + 1) = _
    rw [getLayerD_cons_succ, getLayerD_cons_succ]
    exact getLayerD_setParamB_ne ps l m bn (by omega)

/-! ## `perturb` and `reshapeLike` lemmas -/

theorem perturb_length : ∀ (v : QVec) (idx : Nat) (d : ℚ),
    (perturb v idx d).length = v.length
  | [], _, _ => rfl
  | _ :: _, 0, _ => rfl
  | x :: xs, j + 1, d => by simp [perturb, perturb_length xs j d]

theorem perturb_getElem? : ∀ (v : QVec) (idx j : Nat) (d : ℚ),
    (perturb v idx d)[j]? = if j = idx then v[j]?.map (· + d) else v[j]?
  | [], idx, j, d => by simp [perturb]
  | x :: xs, 0, 0, d => by simp [perturb]
  | x :: xs, 0, j + 1, d => by simp [perturb]
  | x :: xs, i + 1, 0, d => by simp [perturb]
  | x :: xs, i + 1, j + 1, d => by
    simpa [perturb] using perturb_getElem? xs i j d

theorem reshapeLike_flatten : ∀ (M : QMat), reshapeLike M M.flatten = M
  | [] => rfl
  | row :: rows => by
    simp [reshapeLike, List.flatten_cons, List.take_left, List.drop_left,
      reshapeLike_flatten rows]

theorem flatten_reshapeLike : ∀ (M : QMat) (v : QVec), v.length = M.flatten.length →
    (reshapeLike M v).flatten = v
  | [], v, h => by
    simp at h
    simp [reshapeLike, h]
  | row :: rows, v, h => by
    have hlen : row.length ≤ v.length := by simp [List.flatten_cons] at h; omega
    have hdrop : (v.drop row.length).length = rows.flatten.length := by
      simp [List.flatten_cons] at h ⊢; omega
    simp [reshapeLike, List.flatten_cons, flatten_reshapeLike rows _ hdrop]

theorem reshapeLike_sameShape : ∀ (M : QMat) (v : QVec), v.length = M.flatten.length →
    SameShapeM (reshapeLike M v) M
  | [], _, _ => rfl
  | row :: rows, v, h => by
    have hlen : row.length ≤ v.length := by simp [List.flatten_cons] at h; omega
    have hdrop : (v.drop row.length).length = rows.flatten.length := by
      simp [List.flatten_cons] at h ⊢; omega
    have ih := reshapeLike_sameShape rows _ hdrop
    simp [reshapeLike, SameShapeM] at ih ⊢
    exact ⟨by omega, ih⟩

/-! ## Numerical-gradient loop lemmas -/

theorem numGradLoopW_snd (loss : List NLayer → ℚ) (l : Nat) (P : QMat) :
    ∀ (idxs : List Nat) (ps : List NLayer),
      (numGradLoopW loss l P idxs ps).2 = if idxs.isEmpty then ps else setParamW ps l P
  | [], _ => rfl
  | idx :: rest, ps => by
    show (numGradLoopW loss l P rest (setParamW ps l P)).2 = _
    rw [numGradLoopW_snd loss l P rest (setParamW ps l P)]
    cases rest <;> simp [setParamW_setParamW]

theorem numGradLoopB_snd (loss : List NLayer → ℚ) (l : Nat) (P : QVec) :
    ∀ (idxs : List Nat) (ps : List NLayer),
      (numGradLoopB loss l P idxs ps).2 = if idxs.isEmpty then ps else setParamB ps l P
  | [], _ => rfl
  | idx :: rest, ps => by
    show (numGradLoopB loss l P rest (setParamB ps l P)).2 = _
    rw [numGradLoopB_snd loss l P rest (setParamB ps l P)]
    cases rest <;> simp [setParamB_setParamB]

theorem numericalGradientW_snd (loss : List NLayer → ℚ) (ps : List NLayer) (l : Nat) :
    (numericalGradientW loss ps l).2 = ps := by
  simp only [numericalGradientW]
  rw [numGradLoopW_snd]
  split
  · rfl
  · exact setParamW_self ps l

theorem numericalGradientB_snd (loss : List NLayer → ℚ) (ps : List NLayer) (l : Nat) :
    (numericalGradientB loss ps l).2 = ps := by
  simp only [numericalGradientB]
  rw [numGradLoopB_snd]
  split
  · rfl
  · exact setParamB_self ps l

theorem numGradAllLoop_snd (loss : List NLayer → ℚ) :
    ∀ (idxs : List Nat) (ps : List NLayer), (numGradAllLoop loss idxs ps).2 = ps
  | [], _ => rfl
  | l :: rest, ps => by
    simp only [numGradAllLoop]
    rw [numericalGradientW_snd, numericalGradientB_snd, numGradAllLoop_snd loss rest ps]

theorem numGradLoopW_fst (loss : List NLayer → ℚ) (l : Nat) (P : QMat) :
    ∀ (idxs : List Nat) (ps : List NLayer),
      (numGradLoopW loss l P idxs ps).1 = idxs.map (fun idx =>
        (loss (setParamW ps l (reshapeLike P (perturb P.flatten idx hstep)))
          - loss (setParamW ps l (reshapeLike P (perturb P.flatten idx (-hstep)))))
          / (2 * hstep))
  | [], _ => rfl
  | idx :: rest, ps => by
    simp only [numGradLoopW, List.map_cons, List.cons.injEq]
    refine ⟨trivial, ?_⟩
    rw [numGradLoopW_fst loss l P rest (setParamW ps l P)]
    simp only [setParamW_setParamW]

theorem numGradLoopB_fst (loss : List NLayer → ℚ) (l : Nat) (P : QVec) :
    ∀ (idxs : List Nat) (ps : List NLayer),
      (numGradLoopB loss l P idxs ps).1 = idxs.map (fun idx =>
        (loss (setParamB ps l (perturb P idx hstep))
          - loss (setParamB ps l (perturb P idx (-hstep)))) / (2 * hstep))
  | [], _ => rfl
  | idx :: rest, ps => by
    simp only [numGradLoopB, List.map_cons, List.cons.injEq]
    refine ⟨trivial, ?_⟩
    rw [numGradLoopB_fst loss l P rest (setParamB ps l P)]
    simp only [setParamB_setParamB]

theorem numericalGradientW_flatten (loss : List NLayer → ℚ) (ps : List NLayer) (l : Nat) :
    (numericalGradientW loss ps l).1.flatten =
      (List.range (getLayerD ps l).W.flatten.length).map (fun idx =>
        (loss (setParamW ps l (reshapeLike (getLayerD ps l).W
            (perturb (getLayerD ps l).W.flatten idx hstep)))
          - loss (setParamW ps l (reshapeLike (getLayerD ps l).W
            (perturb (getLayerD ps l).W.flatten idx (-hstep))))) / (2 * hstep)) := by
  simp only [numericalGradientW]
  rw [flatten_reshapeLike _ _ (by rw [numGradLoopW_fst]; simp), numGradLoopW_fst]

theorem numericalGradientW_sameShape (loss : List NLayer → ℚ) (ps : List NLayer) (l : Nat) :
    SameShapeM (numericalGradientW loss ps l).1 ((getLayerD ps l).W) := by
  simp only [numericalGradientW]
  exact reshapeLike_sameShape _ _ (by rw [numGradLoopW_fst]; simp)

theorem numericalGradientB_fst (loss : List NLayer → ℚ) (ps : List NLayer) (l : Nat) :
    (numericalGradientB loss ps l).1 =
      (List.range (getLayerD ps l).b.length).map (fun idx =>
        (loss (setParamB ps l (perturb (getLayerD ps l).b idx hstep))
          - loss (setParamB ps l (perturb (getLayerD ps l).b idx (-hstep))))
          / (2 * hstep)) := by
  simp only [numericalGradientB]
  rw [numGradLoopB_fst]

theorem numericalGradientB_length (loss : List NLayer → ℚ) (ps : List NLayer) (l : Nat) :
    (numericalGradientB loss ps l).1.length = (getLayerD ps l).b.length := by
  rw [numericalGradientB_fst]; simp

theorem numGradAllLoop_fst (loss : List NLayer → ℚ) :
    ∀ (idxs : List Nat) (ps : List NLayer),
      (numGradAllLoop loss idxs ps).1 = idxs.map (gradLayerAt loss ps)
  | [], _ => rfl
  | l :: rest, ps => by
    simp only [numGradAllLoop, numericalGradientW_snd, numericalGradientB_snd,
      List.map_cons]
    rw [numGradAllLoop_fst loss rest ps]
    rfl

theorem numericalGradientAll_fst (loss : List NLayer → ℚ) (ps : List NLayer) :
    (numericalGradientAll loss ps).1 = (List.range ps.length).map (gradLayerAt loss ps) :=
  numGradAllLoop_fst loss _ ps

theorem gradLayerAt_aligned (loss : List NLayer → ℚ) (ps : List NLayer) (l : Nat) :
    LayerAligned (gradLayerAt loss ps l) (getLayerD ps l) :=
  ⟨numericalGradientW_sameShape loss ps l, numericalGradientB_length loss ps l⟩

theorem numericalGradientAll_getLayerD (loss : List NLayer → ℚ) (ps : List NLayer)
    (l : Nat) (h : l < ps.length) :
    getLayerD (numericalGradientAll loss ps).1 l = gradLayerAt loss ps l := by
  rw [numericalGradientAll_fst]
  simp [getLayerD, List.getD_eq_getElem?_getD, h]

/-! ## More `pyGet` lemmas -/

theorem pyGet_zero {α : Type} (xs : List α) : pyGet xs 0 = xs[0]? := by
  simp [pyGet]

theorem pyGet_natCast_add_one {α : Type} (xs : List α) (l : Nat) :
    pyGet xs ((l : Int) + 1) = xs[l + 1]? := by
  have h : ((l : Int) + 1) = ((l + 1 : Nat) : Int) := by push_cast; ring
  rw [h, pyGet_natCast]

theorem pyGet_concat_last {α : Type} (xs : List α) (x : α) :
    pyGet (xs ++ [x]) (((xs ++ [x]).length : Int) - 1) = some x := by
  have h : (((xs ++ [x]).length : Nat) : Int) - 1 = ((xs.length : Nat) : Int) := by
    rw [List.length_append]
    simp
  rw [h, pyGet_natCast]
  simp

/-! ## Indexed access into the shape predicates -/

theorem MatsShape_length : ∀ {Ms : List QMat} {r : Nat} {cs : List Nat},
    MatsShape Ms r cs → Ms.length = cs.length
  | [], _, [], _ => rfl
  | _ :: Ms, r, _ :: cs, h => by
    simpa using @MatsShape_length Ms r cs h.2
  | [], _, _ :: _, h => h.elim
  | _ :: _, _, [], h => h.elim

theorem MatsShape_getElem? : ∀ {Ms : List QMat} {r : Nat} {cs : List Nat} {j : Nat} {M : QMat},
    MatsShape Ms r cs → Ms[j]? = some M → ∃ c, cs[j]? = some c ∧ MatShape M r c
  | M0 :: Ms, r, c :: cs, 0, M, h, hj => by
    simp at hj
    subst hj
    exact ⟨c, by simp, h.1⟩
  | M0 :: Ms, r, c :: cs, j + 1, M, h, hj => by
    simp only [List.getElem?_cons_succ] at hj
    obtain ⟨c2, hc, hM⟩ := MatsShape_getElem? h.2 hj
    exact ⟨c2, by simpa using hc, hM⟩
  | [], _, [], j, M, _, hj => by simp at hj
  | [], _, _ :: _, _, _, h, _ => h.elim
  | _ :: _, _, [], _, _, h, _ => h.elim

theorem ParamsShape_length : ∀ {ps : List NLayer} {d0 : Nat} {ds : List Nat},
    ParamsShape ps d0 ds → ps.length = ds.length
  | [], _, [], _ => rfl
  | _ :: ps, _, d1 :: ds, h => by
    simpa using @ParamsShape_length ps d1 ds h.2.2
  | [], _, _ :: _, h => h.elim
  | _ :: _, _, [], h => h.elim

theorem ParamsShape_getElem? :
    ∀ {ps : List NLayer} {d0 : Nat} {ds : List Nat} {j : Nat} {p : NLayer},
      ParamsShape ps d0 ds → ps[j]? = some p →
      ∃ din dout, (d0 :: ds)[j]? = some din ∧ ds[j]? = some dout ∧
        MatShape p.W din dout ∧ p.b.length = dout
  | p0 :: ps, d0, d1 :: ds, 0, p, h, hj => by
    simp at hj
    subst hj
    exact ⟨d0, d1, by simp, by simp, h.1, h.2.1⟩
  | p0 :: ps, d0, d1 :: ds, j + 1, p, h, hj => by
    simp only [List.getElem?_cons_succ] at hj
    obtain ⟨din, dout, h1, h2, h3, h4⟩ := ParamsShape_getElem? h.2.2 hj
    exact ⟨din, dout, by simpa using h1, by simpa using h2, h3, h4⟩
  | [], _, [], j, p, _, hj => by simp at hj
  | [], _, _ :: _, _, _, h, _ => h.elim
  | _ :: _, _, [], _, _, h, _ => h.elim

/-! ## Forward-pass shape lemma -/

theorem forwardMiddles_shape (ef : ℚ → ℚ) (act : Act) :
    ∀ (mids : List NLayer) (d0 : Nat) (ds : List Nat) (Z : QMat) (bsz : Nat),
      0 < bsz → 0 < d0 → (∀ d ∈ ds, 0 < d) →
      MatShape Z bsz d0 → ParamsShape mids d0 ds →
      MatShape (forwardMiddles ef act mids Z).1 bsz (ds.getLastD d0) ∧
        MatsShape (forwardMiddles ef act mids Z).2.1 bsz ds ∧
        MatsShape (forwardMiddles ef act mids Z).2.2 bsz ds
  | [], d0, [], Z, bsz, _, _, _, hZ, _ => ⟨hZ, trivial, trivial⟩
  | [], _, _ :: _, _, _, _, _, _, _, hps => hps.elim
  | _ :: _, _, [], _, _, _, _, _, _, hps => hps.elim
  | p :: mids, d0, d1 :: ds, Z, bsz, hbsz, hd0, hds, hZ, hps => by
    have hd1 : 0 < d1 := hds d1 (by simp)
    have hfm := forward_middle_shape ef act hZ hps.1 hps.2.1 hd0
    have ih := forwardMiddles_shape ef act mids d1 ds (forward_middle ef act Z p.W p.b).1 bsz
      hbsz hd1 (fun d hd => hds d (by simp [hd])) hfm.1 hps.2.2
    refine ⟨?_, ⟨hfm.1, ih.2.1⟩, ⟨hfm.2, ih.2.2⟩⟩
    rw [List.getLastD_cons]
    exact ih.1

theorem mem_of_getElem?Q {α : Type} {l : List α} {i : Nat} {a : α} (h : l[i]? = some a) :
    a ∈ l := by
  obtain ⟨hlt, heq⟩ := List.getElem?_eq_some.mp h
  exact heq ▸ List.getElem_mem hlt


theorem MatsShape_get2 {Ms : List QMat} {r : Nat} {cs : List Nat} {j : Nat} {M : QMat} {c : Nat}
    (h : MatsShape Ms r cs) (hM : Ms[j]? = some M) (hc : cs[j]? = some c) :
    MatShape M r c := by
  obtain ⟨c2, hc2, hsh⟩ := MatsShape_getElem? h hM
  rw [hc2] at hc
  exact (Option.some.inj hc) ▸ hsh

theorem ParamsShape_get2 {ps : List NLayer} {d0 : Nat} {ds : List Nat} {j : Nat} {p : NLayer}
    {din dout : Nat} (h : ParamsShape ps d0 ds) (hp : ps[j]? = some p)
    (hdin : (d0 :: ds)[j]? = some din) (hdout : ds[j]? = some dout) :
    MatShape p.W din dout ∧ p.b.length = dout := by
  obtain ⟨di, du, h1, h2, h3, h4⟩ := ParamsShape_getElem? h hp
  rw [h1] at hdin
  rw [h2] at hdout
  cases Option.some.inj hdin
  cases Option.some.inj hdout
  exact ⟨h3, h4⟩

theorem backMiddleStep_spec (act : Act) (mids : List NLayer) (plast : NLayer) (X : QMat)
    (Zs As : List QMat) (d0 bsz : Nat) (ds : List Nat)
    (hps : ParamsShape mids d0 ds) (hZs : MatsShape Zs bsz ds) (hAs : MatsShape As bsz ds)
    (hbsz : 0 < bsz) (hd0 : 0 < d0) (hds : ∀ d ∈ ds, 0 < d) (hX : MatShape X bsz d0) :
    ∀ (l : Nat) (dZprev : QMat) (acc : List NLayer) (dl : Nat),
      l < mids.length → ds[l]? = some dl → MatShape dZprev bsz dl →
      ∃ gs, backMiddleStep act (mids ++ [plast]) X Zs As l dZprev acc = some (gs ++ acc) ∧
        List.Forall₂ LayerAligned gs (mids.take (l + 1))
  | 0, dZprev, acc, dl, hl, hdl, hdZ => by
    have hlen := ParamsShape_length hps
    have hAlen := MatsShape_length hAs
    have hZlen := MatsShape_length hZs
    obtain ⟨A0, hA0⟩ : ∃ a, As[0]? = some a :=
      ⟨_, List.getElem?_eq_getElem (by omega)⟩
    have hAshape := MatsShape_get2 hAs hA0 hdl
    obtain ⟨Z0, hZ0⟩ : ∃ a, Zs[0]? = some a :=
      ⟨_, List.getElem?_eq_getElem (by omega)⟩
    have hZshape := MatsShape_get2 hZs hZ0 hdl
    obtain ⟨m0, hm0⟩ : ∃ a, mids[0]? = some a :=
      ⟨_, List.getElem?_eq_getElem hl⟩
    obtain ⟨hWshape, hbshape⟩ := ParamsShape_get2 hps hm0
      (show (d0 :: ds)[0]? = some d0 by simp) hdl
    have htake : mids.take 1 = [m0] := by
      rw [show (1 : Nat) = 0 + 1 from rfl, List.take_succ, hm0]
      rfl
    cases act with
    | relu =>
      have hdA : MatShape (relu_backward dZprev A0) bsz dl :=
        zipWithMat_shape hdZ hAshape _
      have hdW : MatShape (affine_backward_weight (relu_backward dZprev A0) X) d0 dl := by
        have h1 := qtrans_shape hX hbsz
        have h2 := qmul_shape (qtrans X) (relu_backward dZprev A0)
        rwa [h1.1, qcols_eq hdA hbsz] at h2
      refine ⟨[⟨affine_backward_weight (relu_backward dZprev A0) X,
        affine_backward_bias (relu_backward dZprev A0)⟩], ?_, ?_⟩
      · simp only [backMiddleStep, pyGet_zero, hA0, Option.map_some', List.singleton_append]
      · rw [htake]
        refine List.Forall₂.cons ⟨sameShapeM_of_shapes hdW hWshape, ?_⟩ List.Forall₂.nil
        rw [hbshape]
        exact colSums_length hdA hbsz
    | sigmoid =>
      have hdA : MatShape (sigmoid_backward dZprev Z0) bsz dl :=
        zipWithMat_shape hdZ hZshape _
      have hdW : MatShape (affine_backward_weight (sigmoid_backward dZprev Z0) X) d0 dl := by
        have h1 := qtrans_shape hX hbsz
        have h2 := qmul_shape (qtrans X) (sigmoid_backward dZprev Z0)
        rwa [h1.1, qcols_eq hdA hbsz] at h2
      refine ⟨[⟨affine_backward_weight (sigmoid_backward dZprev Z0) X,
        affine_backward_bias (sigmoid_backward dZprev Z0)⟩], ?_, ?_⟩
      · simp only [backMiddleStep, pyGet_zero, hZ0, Option.map_some', List.singleton_append]
      · rw [htake]
        refine List.Forall₂.cons ⟨sameShapeM_of_shapes hdW hWshape, ?_⟩ List.Forall₂.nil
        rw [hbshape]
        exact colSums_length hdA hbsz
  | l + 1, dZprev, acc, dl, hl, hdl, hdZ => by
    have hlen := ParamsShape_length hps
    have hAlen := MatsShape_length hAs
    have hZlen := MatsShape_length hZs
    have hdlpos : 0 < dl := hds dl (mem_of_getElem?Q hdl)
    obtain ⟨A1, hA⟩ : ∃ a, As[l + 1]? = some a :=
      ⟨_, List.getElem?_eq_getElem (by omega)⟩
    have hAshape := MatsShape_get2 hAs hA hdl
    obtain ⟨Z1, hZ1⟩ : ∃ a, Zs[l + 1]? = some a :=
      ⟨_, List.getElem?_eq_getElem (by omega)⟩
    have hZ1shape := MatsShape_get2 hZs hZ1 hdl
    obtain ⟨Zl0, hZl⟩ : ∃ a, Zs[l]? = some a :=
      ⟨_, List.getElem?_eq_getElem (by omega)⟩
    obtain ⟨dsl, hdsl, hZlshape⟩ := MatsShape_getElem? hZs hZl
    have hdslpos : 0 < dsl := hds dsl (mem_of_getElem?Q hdsl)
    obtain ⟨m1, hm⟩ : ∃ a, mids[l + 1]? = some a :=
      ⟨_, List.getElem?_eq_getElem hl⟩
    obtain ⟨hWshape, hbshape⟩ := ParamsShape_get2 hps hm
      (by rw [List.getElem?_cons_succ]; exact hdsl) hdl
    have hP : (mids ++ [plast])[l + 1]? = some m1 := by
      rw [List.getElem?_append]
      rw [if_pos hl]
      exact hm
    have htake : mids.take (l + 2) = mids.take (l + 1) ++ [m1] := by
      rw [List.take_succ, hm]
      rfl
    cases act with
    | relu =>
      have hdA : MatShape (relu_backward dZprev A1) bsz dl :=
        zipWithMat_shape hdZ hAshape _
      have hdW : MatShape (affine_backward_weight (relu_backward dZprev A1) Zl0)
          dsl dl := by
        have h1 := qtrans_shape hZlshape hbsz
        have h2 := qmul_shape (qtrans Zl0) (relu_backward dZprev A1)
        rwa [h1.1, qcols_eq hdA hbsz] at h2
      have hdZ2 : MatShape (affine_backward_zprev (relu_backward dZprev A1) m1.W)
          bsz dsl := by
        have h1 := qtrans_shape hWshape hdslpos
        have h2 := qmul_shape (relu_backward dZprev A1) (qtrans m1.W)
        rwa [hdA.1, qcols_eq h1 hdlpos] at h2
      obtain ⟨gs, heq, halign⟩ := backMiddleStep_spec Act.relu mids plast X Zs As d0 bsz ds
        hps hZs hAs hbsz hd0 hds hX l
        (affine_backward_zprev (relu_backward dZprev A1) m1.W)
        (⟨affine_backward_weight (relu_backward dZprev A1) Zl0,
          affine_backward_bias (relu_backward dZprev A1)⟩ :: acc)
        dsl (by omega) hdsl hdZ2
      refine ⟨gs ++ [⟨affine_backward_weight (relu_backward dZprev A1) Zl0,
        affine_backward_bias (relu_backward dZprev A1)⟩], ?_, ?_⟩
      · simp only [backMiddleStep, pyGet_natCast_add_one, pyGet_natCast, hA, hZl, hP,
          Option.map_some']
        rw [heq, List.append_cons]
      · rw [htake]
        refine List.rel_append halign (List.Forall₂.cons
          ⟨sameShapeM_of_shapes hdW hWshape, ?_⟩ List.Forall₂.nil)
        rw [hbshape]
        exact colSums_length hdA hbsz
    | sigmoid =>
      have hdA : MatShape (sigmoid_backward dZprev Z1) bsz dl :=
        zipWithMat_shape hdZ hZ1shape _
      have hdW : MatShape (affine_backward_weight (sigmoid_backward dZprev Z1) Zl0)
          dsl dl := by
        have h1 := qtrans_shape hZlshape hbsz
        have h2 := qmul_shape (qtrans Zl0) (sigmoid_backward dZprev Z1)
        rwa [h1.1, qcols_eq hdA hbsz] at h2
      have hdZ2 : MatShape (affine_backward_zprev (sigmoid_backward dZprev Z1) m1.W)
          bsz dsl := by
        have h1 := qtrans_shape hWshape hdslpos
        have h2 := qmul_shape (sigmoid_backward dZprev Z1) (qtrans m1.W)
        rwa [hdA.1, qcols_eq h1 hdlpos] at h2
      obtain ⟨gs, heq, halign⟩ := backMiddleStep_spec Act.sigmoid mids plast X Zs As d0 bsz ds
        hps hZs hAs hbsz hd0 hds hX l
        (affine_backward_zprev (sigmoid_backward dZprev Z1) m1.W)
        (⟨affine_backward_weight (sigmoid_backward dZprev Z1) Zl0,
          affine_backward_bias (sigmoid_backward dZprev Z1)⟩ :: acc)
        dsl (by omega) hdsl hdZ2
      refine ⟨gs ++ [⟨affine_backward_weight (sigmoid_backward dZprev Z1) Zl0,
        affine_backward_bias (sigmoid_backward dZprev Z1)⟩], ?_, ?_⟩
      · simp only [backMiddleStep, pyGet_natCast_add_one, pyGet_natCast, hZ1, hZl, hP,
          Option.map_some']
        rw [heq, List.append_cons]
      · rw [htake]
        refine List.rel_append halign (List.Forall₂.cons
          ⟨sameShapeM_of_shapes hdW hWshape, ?_⟩ List.Forall₂.nil)
        rw [hbshape]
        exact colSums_length hdA hbsz

theorem getLastD_mem : ∀ (ds : List Nat) (d0 : Nat), ds = [] ∨ ds.getLastD d0 ∈ ds
  | [], _ => Or.inl rfl
  | [a], _ => Or.inr (by simp)
  | a :: b :: t, d0 => by
    rcases getLastD_mem (b :: t) a with h | h
    · exact absurd h (by simp)
    · exact Or.inr (by rw [List.getLastD_cons]; exact List.mem_cons_of_mem a h)

theorem getLastD_pos {ds : List Nat} {d0 : Nat} (hd0 : 0 < d0) (hds : ∀ d ∈ ds, 0 < d) :
    0 < ds.getLastD d0 := by
  rcases getLastD_mem ds d0 with h | h
  · subst h; simpa using hd0
  · exact hds _ h

theorem getElem?_last_eq_getLastD (ds : List Nat) (d0 : Nat) (h : ds ≠ []) :
    ds[ds.length - 1]? = some (ds.getLastD d0) := by
  rw [← List.getLast?_eq_getElem? ds, List.getLastD_eq_getLast? d0 ds,
    List.getLast?_eq_getLast ds h]
  rfl

theorem gradient_backpropagation_aligned (ef : ℚ → ℚ) (act : Act)
    (mids : List NLayer) (plast : NLayer) (X T : QMat)
    (d0 bsz dn : Nat) (ds : List Nat)
    (hmids : mids ≠ [])
    (hps : ParamsShape mids d0 ds)
    (hWlast : MatShape plast.W (ds.getLastD d0) dn) (hblast : plast.b.length = dn)
    (hX : MatShape X bsz d0) (hT : MatShape T bsz dn)
    (hbsz : 0 < bsz) (hd0 : 0 < d0) (hds : ∀ d ∈ ds, 0 < d) (hdn : 0 < dn) :
    ∃ grads, gradient_backpropagation ef act (mids ++ [plast]) X T = some grads ∧
      List.Forall₂ LayerAligned grads (mids ++ [plast]) := by
  have hm1 : 0 < mids.length := List.length_pos.mpr hmids
  have hlen := ParamsShape_length hps
  have hdsne : ds ≠ [] := by
    intro hnil
    apply hmids
    rw [hnil] at hlen
    exact List.length_eq_zero.mp (by simpa using hlen)
  have hdLpos : 0 < ds.getLastD d0 := getLastD_pos hd0 hds
  have hpl : pyGet (mids ++ [plast]) (((mids ++ [plast]).length : Int) - 1) = some plast :=
    pyGet_concat_last mids plast
  have hfw := forwardMiddles_shape ef act mids d0 ds X bsz hbsz hd0 hds hX hps
  have hZslen : (forwardMiddles ef act mids X).2.1.length = ds.length :=
    MatsShape_length hfw.2.1
  have hY : MatShape (forward_last_classification ef (forwardMiddles ef act mids X).1
      plast.W plast.b) bsz dn :=
    forward_last_shape ef hfw.1 hWlast hblast hdLpos
  have hdA : MatShape (softmax_loss_backward (forward_last_classification ef
      (forwardMiddles ef act mids X).1 plast.W plast.b) T) bsz dn :=
    zipWithMat_shape hY hT _
  have hlenps : (mids ++ [plast]).length = mids.length + 1 := by simp
  have hidx : (((mids ++ [plast]).length : Int) - 2) = ((mids.length - 1 : Nat) : Int) := by
    rw [hlenps]; omega
  obtain ⟨Zl, hZlast⟩ : ∃ a, (forwardMiddles ef act mids X).2.1[mids.length - 1]? = some a :=
    ⟨_, List.getElem?_eq_getElem (by omega)⟩
  have hdsLast : ds[mids.length - 1]? = some (ds.getLastD d0) := by
    rw [hlen]
    exact getElem?_last_eq_getLastD ds d0 hdsne
  have hZshape := MatsShape_get2 hfw.2.1 hZlast hdsLast
  set dA := softmax_loss_backward (forward_last_classification ef
      (forwardMiddles ef act mids X).1 plast.W plast.b) T with hdAdef
  have hdW : MatShape (affine_backward_weight dA Zl) (ds.getLastD d0) dn := by
    have h1 := qtrans_shape hZshape hbsz
    have h2 := qmul_shape (qtrans Zl) dA
    rwa [h1.1, qcols_eq hdA hbsz] at h2
  have hdZprev : MatShape (affine_backward_zprev dA plast.W) bsz (ds.getLastD d0) := by
    have h1 := qtrans_shape hWlast hdLpos
    have h2 := qmul_shape dA (qtrans plast.W)
    rwa [hdA.1, qcols_eq h1 hdn] at h2
  obtain ⟨gs, heq, halign⟩ := backMiddleStep_spec act mids plast X
    (forwardMiddles ef act mids X).2.1 (forwardMiddles ef act mids X).2.2 d0 bsz ds
    hps hfw.2.1 hfw.2.2 hbsz hd0 hds hX (mids.length - 1)
    (affine_backward_zprev dA plast.W) [] (ds.getLastD d0) (by omega) hdsLast hdZprev
  refine ⟨gs ++ [⟨affine_backward_weight dA Zl, affine_backward_bias dA⟩], ?_, ?_⟩
  · simp only [gradient_backpropagation, predictOnehotTrain, hpl, List.dropLast_concat]
    rw [hidx, pyGet_natCast, hZlast]
    simp only [hpl]
    rw [if_pos (by rw [hlenps]; omega)]
    rw [show (mids ++ [plast]).length - 2 = mids.length - 1 from by rw [hlenps]; omega]
    rw [← hdAdef, heq]
    simp
  · refine List.rel_append ?_ (List.Forall₂.cons ⟨sameShapeM_of_shapes hdW hWlast, ?_⟩
      List.Forall₂.nil)
    · rw [show mids.length - 1 + 1 = mids.length from by omega, List.take_length mids] at halign
      exact halign
    · rw [hblast]
      exact colSums_length hdA hbsz

/-! ## One-layer failure of the analytic engine -/

theorem gradient_backpropagation_one_layer (ef : ℚ → ℚ) (act : Act) (ps : List NLayer)
    (X T : QMat) (h : ps.length = 1) :
    gradient_backpropagation ef act ps X T = none := by
  obtain ⟨p, rfl⟩ : ∃ p, ps = [p] := by
    cases ps with
    | nil => simp at h
    | cons p t =>
      cases t with
      | nil => exact ⟨p, rfl⟩
      | cons q r => simp at h
  simp only [gradient_backpropagation, predictOnehotTrain, forwardMiddles]
  norm_num [pyGet]

/-! ## Parameter-update lemmas -/

theorem getLayerD_getElem? {ps : List NLayer} {l : Nat} (h : l < ps.length) :
    ps[l]? = some (getLayerD ps l) := by
  simp [getLayerD, List.getD_eq_getElem?_getD, List.getElem?_eq_getElem h]

theorem updLoop_spec (lr : ℚ) (grads : List NLayer) :
    ∀ (idxs : List Nat) (ps : List NLayer),
      (∀ l ∈ idxs, l < ps.length ∧ l < grads.length) → idxs.Nodup →
      ∃ ps2, updLoop lr grads idxs ps = some ps2 ∧ ps2.length = ps.length ∧
        (∀ l ∈ idxs, getLayerD ps2 l = updL lr (getLayerD ps l) (getLayerD grads l)) ∧
        (∀ l, l ∉ idxs → getLayerD ps2 l = getLayerD ps l)
  | [], ps, _, _ => ⟨ps, rfl, rfl, by simp, fun _ _ => rfl⟩
  | l0 :: rest, ps, hb, hnd => by
    have hl0 := hb l0 (by simp)
    have hg : pyGet grads ((l0 : Nat) : Int) = some (getLayerD grads l0) := by
      rw [pyGet_natCast]
      exact getLayerD_getElem? hl0.2
    have hps1b : getLayerD (setParamW ps l0 (updLayerW lr (getLayerD ps l0).W
        (getLayerD grads l0).W)) l0 =
        ⟨updLayerW lr (getLayerD ps l0).W (getLayerD grads l0).W, (getLayerD ps l0).b⟩ :=
      getLayerD_setParamW_self ps l0 _ hl0.1
    have hl0rest : l0 ∉ rest := (List.nodup_cons.mp hnd).1
    obtain ⟨ps3, heq, hlen3, hin, hout⟩ := updLoop_spec lr grads rest
      (setParamB (setParamW ps l0 (updLayerW lr (getLayerD ps l0).W (getLayerD grads l0).W)) l0
        (updVec lr (getLayerD (setParamW ps l0 (updLayerW lr (getLayerD ps l0).W
          (getLayerD grads l0).W)) l0).b (getLayerD grads l0).b))
      (fun l hl => ⟨by
          have := (hb l (by simp [hl])).1
          rw [setParamB_length, setParamW_length]
          exact this,
        (hb l (by simp [hl])).2⟩)
      (List.nodup_cons.mp hnd).2
    refine ⟨ps3, ?_, ?_, ?_, ?_⟩
    · simp only [updLoop, hg]
      exact heq
    · rw [hlen3, setParamB_length, setParamW_length]
    · intro l hl
      rcases List.mem_cons.mp hl with rfl | hl2
      · rw [hout l hl0rest]
        rw [getLayerD_setParamB_self _ _ _ (by rw [setParamW_length]; exact hl0.1)]
        rw [hps1b]
        rfl
      · rw [hin l hl2]
        have hne : l0 ≠ l := fun hcontra => hl0rest (hcontra ▸ hl2)
        rw [getLayerD_setParamB_ne _ _ _ _ hne, getLayerD_setParamW_ne _ _ _ _ hne]
    · intro l hl
      have hlrest : l ∉ rest := fun hc => hl (by simp [hc])
      have hne : l0 ≠ l := fun hcontra => hl (by simp [hcontra])
      rw [hout l hlrest, getLayerD_setParamB_ne _ _ _ _ hne,
        getLayerD_setParamW_ne _ _ _ _ hne]

theorem update_parameters_spec (lr : ℚ) (ps grads : List NLayer)
    (hlen : ps.length ≤ grads.length) :
    ∃ ps2, update_parameters lr ps grads = some ps2 ∧ ps2.length = ps.length ∧
      ∀ l, l < ps.length →
        getLayerD ps2 l = updL lr (getLayerD ps l) (getLayerD grads l) := by
  obtain ⟨ps2, heq, hl2, hin, _⟩ := updLoop_spec lr grads (List.range ps.length) ps
    (fun l hl => ⟨List.mem_range.mp hl, by have := List.mem_range.mp hl; omega⟩)
    (List.nodup_range _)
  exact ⟨ps2, heq, hl2, fun l hl => hin l (List.mem_range.mpr hl)⟩

theorem updVec_zero : ∀ (b : QVec) (lr : ℚ), updVec lr b (b.map (fun _ => 0)) = b
  | [], _ => rfl
  | x :: xs, lr => by
    simp only [updVec, List.map_cons, List.zipWith_cons_cons, mul_zero, sub_zero]
    rw [show List.zipWith (fun w gg => w - lr * gg) xs (xs.map fun _ => 0) = xs from
      updVec_zero xs lr]

theorem updLayerW_zero : ∀ (W : QMat) (lr : ℚ), updLayerW lr W (matMap (fun _ => 0) W) = W
  | [], _ => rfl
  | row :: rows, lr => by
    simp only [updLayerW, zipWithMat, matMap, List.map_cons, List.zipWith_cons_cons]
    rw [show List.zipWith (fun w g => w - lr * g) row (row.map fun _ => 0) = row from
        updVec_zero row lr,
      show List.zipWith (List.zipWith fun w g => w - lr * g) rows
          (rows.map (List.map fun _ => 0)) = rows from updLayerW_zero rows lr]

theorem updLoop_zero (lr : ℚ) (ps : List NLayer) :
    ∀ (idxs : List Nat), (∀ l ∈ idxs, l < ps.length) →
      updLoop lr (zeroGradsLike ps) idxs ps = some ps
  | [], _ => rfl
  | l0 :: rest, hb => by
    have hl0 : l0 < ps.length := hb l0 (by simp)
    have hg : pyGet (zeroGradsLike ps) ((l0 : Nat) : Int) =
        some ⟨matMap (fun _ => 0) (getLayerD ps l0).W,
          (getLayerD ps l0).b.map (fun _ => 0)⟩ := by
      rw [pyGet_natCast]
      simp [zeroGradsLike, getLayerD_getElem? hl0]
    simp only [updLoop, hg]
    rw [updLayerW_zero, setParamW_self, updVec_zero, setParamB_self]
    exact updLoop_zero lr ps rest (fun l hl => hb l (by simp [hl]))

theorem update_parameters_zero (lr : ℚ) (ps : List NLayer) :
    update_parameters lr ps (zeroGradsLike ps) = some ps :=
  updLoop_zero lr ps (List.range ps.length) (fun l hl => List.mem_range.mp hl)

/-! ## Accuracy lemmas -/

theorem countMatches_le : ∀ (Yl Tl : List Nat), countMatches Yl Tl ≤ Yl.length
  | [], _ => by simp [countMatches]
  | _ :: _, [] => by simp [countMatches]
  | a :: Yl, b :: Tl => by
    simp only [countMatches, List.zipWith_cons_cons, List.count_cons]
    have := countMatches_le Yl Tl
    simp only [countMatches] at this
    split <;> simp <;> omega

theorem countMatches_all : ∀ {Yl Tl : List Nat}, List.Forall₂ (fun a b => a = b) Yl Tl →
    countMatches Yl Tl = Yl.length
  | _, _, List.Forall₂.nil => rfl
  | _, _, List.Forall₂.cons h1 h2 => by
    simp only [countMatches, List.zipWith_cons_cons, List.count_cons, h1, List.length_cons]
    have := countMatches_all h2
    simp only [countMatches] at this
    simp [this]

theorem countMatches_zero : ∀ {Yl Tl : List Nat}, List.Forall₂ (fun a b => a ≠ b) Yl Tl →
    countMatches Yl Tl = 0
  | _, _, List.Forall₂.nil => rfl
  | _, _, List.Forall₂.cons h1 h2 => by
    simp only [countMatches, List.zipWith_cons_cons, List.count_cons]
    have := countMatches_zero h2
    simp only [countMatches] at this
    simp [this, h1]

/-! ## One-hot round-trip lemmas -/

theorem insertSorted_perm (x : Int) : ∀ (l : List Int), (insertSorted x l).Perm (x :: l)
  | [] => List.Perm.refl _
  | y :: ys => by
    simp only [insertSorted]
    split
    · exact List.Perm.refl _
    · exact ((insertSorted_perm x ys).cons y).trans (List.Perm.swap x y ys)

theorem sortInts_perm : ∀ (l : List Int), (sortInts l).Perm l
  | [] => List.Perm.refl _
  | x :: xs => by
    simp only [sortInts, List.foldr_cons]
    exact (insertSorted_perm x _).trans ((sortInts_perm xs).cons x)

theorem mem_categoriesOf {t : Int} {T : List Int} (h : t ∈ T) : t ∈ categoriesOf T :=
  ((sortInts_perm T.dedup).mem_iff).mpr (List.mem_dedup.mpr h)

theorem nodup_categoriesOf (T : List Int) : (categoriesOf T).Nodup :=
  ((sortInts_perm T.dedup).nodup_iff).mpr (List.nodup_dedup T)

theorem maxVal_zeros : ∀ {v : QVec}, (∀ x ∈ v, x = 0) → maxVal v = 0
  | [], _ => rfl
  | [x], h => h x (by simp)
  | x :: y :: t, h => by
    have h1 := h x (by simp)
    have h2 : maxVal (y :: t) = 0 :=
      maxVal_zeros (fun z hz => h z (List.mem_cons_of_mem x hz))
    show max x (maxVal (y :: t)) = 0
    rw [h1, h2]
    simp

theorem maxVal_oneHot_le (t : Int) : ∀ (cats : List Int), maxVal (oneHotRow cats t) ≤ 1
  | [] => by norm_num [oneHotRow, maxVal]
  | [c] => by
    simp only [oneHotRow, List.map_cons, List.map_nil, maxVal]
    split <;> norm_num
  | c :: c2 :: r => by
    have ih := maxVal_oneHot_le t (c2 :: r)
    show max (if c = t then (1 : ℚ) else 0) (maxVal (oneHotRow (c2 :: r) t)) ≤ 1
    exact max_le (by split <;> norm_num) ih

theorem maxVal_oneHot_mem {t : Int} : ∀ {cats : List Int}, t ∈ cats →
    maxVal (oneHotRow cats t) = 1
  | [], h => absurd h (by simp)
  | [c], h => by
    have ht : t = c := by simpa using h
    simp [oneHotRow, maxVal, ht.symm]
  | c :: c2 :: r, h => by
    show max (if c = t then (1 : ℚ) else 0) (maxVal (oneHotRow (c2 :: r) t)) = 1
    by_cases hc : c = t
    · rw [if_pos hc]
      exact max_eq_left (maxVal_oneHot_le t (c2 :: r))
    · have ht : t ∈ c2 :: r := by
        rcases List.mem_cons.mp h with h1 | h1
        · exact absurd h1.symm hc
        · exact h1
      rw [if_neg hc, maxVal_oneHot_mem ht]
      norm_num

theorem oneHotRow_cons (c : Int) (cats : List Int) (t : Int) :
    oneHotRow (c :: cats) t = (if c = t then (1 : ℚ) else 0) :: oneHotRow cats t := rfl

theorem argmaxIdx_cons2 (x y : ℚ) (t : QVec) :
    argmaxIdx (x :: y :: t) = if maxVal (y :: t) ≤ x then 0 else argmaxIdx (y :: t) + 1 := rfl

theorem oneHot_argmax_getD : ∀ (cats : List Int) (t : Int), t ∈ cats → cats.Nodup →
    cats.getD (argmaxIdx (oneHotRow cats t)) 0 = t
  | [], t, h, _ => absurd h (by simp)
  | [c], t, h, _ => by
    have ht : t = c := by simpa using h
    simp [oneHotRow, argmaxIdx, ht.symm]
  | c :: c2 :: r, t, h, hnd => by
    have hrow : oneHotRow (c :: c2 :: r) t =
        (if c = t then (1 : ℚ) else 0) :: (if c2 = t then (1 : ℚ) else 0) :: oneHotRow r t :=
      rfl
    rw [hrow, argmaxIdx_cons2]
    rw [show ((if c2 = t then (1 : ℚ) else 0) :: oneHotRow r t) = oneHotRow (c2 :: r) t
      from rfl]
    by_cases hc : c = t
    · have htr : t ∉ c2 :: r := by
        rw [← hc]
        exact (List.nodup_cons.mp hnd).1
      have hz : ∀ x ∈ oneHotRow (c2 :: r) t, x = 0 := by
        intro x hx
        simp only [oneHotRow, List.mem_map] at hx
        obtain ⟨cc, hcc, rfl⟩ := hx
        rw [if_neg]
        intro hcct
        exact htr (hcct ▸ hcc)
      rw [if_pos hc, maxVal_zeros hz]
      rw [if_pos (by norm_num)]
      simpa using hc
    · have ht : t ∈ c2 :: r := by
        rcases List.mem_cons.mp h with h1 | h1
        · exact absurd h1.symm hc
        · exact h1
      rw [if_neg hc, maxVal_oneHot_mem ht]
      rw [if_neg (by norm_num)]
      rw [List.getD_cons_succ]
      exact oneHot_argmax_getD (c2 :: r) t ht (List.nodup_cons.mp hnd).2

theorem map_id_of_mem : ∀ {α : Type} (L : List α) (f : α → α), (∀ t ∈ L, f t = t) →
    L.map f = L
  | _, [], _, _ => rfl
  | _, x :: xs, f, h => by
    simp only [List.map_cons, h x (by simp)]
    rw [map_id_of_mem xs f (fun t ht => h t (by simp [ht]))]

/-! ## Convolution-net initialisation lemmas -/

theorem adjacentConsistent_eq_chainOK : ∀ (a : LayerSpec) (L : List LayerSpec),
    adjacentConsistent (a :: L) = chainOK a.outputShape L
  | _, [] => rfl
  | a, b :: L => by
    simp only [adjacentConsistent, chainOK]
    rw [adjacentConsistent_eq_chainOK b L]

theorem convInitLoop_error : ∀ (L : List LayerSpec) (prev : LayerSpec),
    chainOK prev.outputShape L = false → ∃ e, convInitLoop (some prev) L = Except.error e
  | [], _, h => by simp [chainOK] at h
  | ly :: rest, prev, h => by
    by_cases hw : prev.outputShape = ly.inputShape
    · have hrest : chainOK ly.outputShape rest = false := by
        simp only [chainOK, Bool.and_eq_false_iff] at h
        rcases h with h1 | h1
        · exact absurd hw (by simpa using h1)
        · exact h1
      obtain ⟨e, he⟩ := convInitLoop_error rest ly hrest
      refine ⟨e, ?_⟩
      simp only [convInitLoop, initializeLayer, if_pos hw, he]
    · refine ⟨"shape mismatch between adjacent layers", ?_⟩
      simp only [convInitLoop, initializeLayer, if_neg hw]

theorem convInit_error_of_inconsistent (layers : List LayerSpec)
    (h : adjacentConsistent layers = false) :
    ∃ e, convInitializeParameters layers = Except.error e := by
  cases layers with
  | nil => simp [adjacentConsistent] at h
  | cons l0 rest =>
    rw [adjacentConsistent_eq_chainOK] at h
    obtain ⟨e, he⟩ := convInitLoop_error rest l0 h
    refine ⟨e, ?_⟩
    simp only [convInitializeParameters, convInitLoop, initializeLayer, eq_self_iff_true,
      if_true, he]

/-! ## Minibatch lemmas -/

theorem rowsAt_some (X : QMat) : ∀ (mask : List Nat), (∀ i ∈ mask, i < X.length) →
    rowsAt X mask = some (mask.map (fun i => X.getD i []))
  | [], _ => rfl
  | i :: is, hb => by
    have hi : i < X.length := hb i (by simp)
    simp only [rowsAt, List.getElem?_eq_getElem hi,
      rowsAt_some X is (fun j hj => hb j (by simp [hj])), List.map_cons]
    rw [List.getD_eq_getElem?_getD, List.getElem?_eq_getElem hi]
    rfl

/-! ## Claim theorems -/

/-- Claim C2: for every layer `l` and both parameter kinds,
`SGDNeuralNet._numerical_gradient` computes each scalar component of the
gradient as `(loss with that component increased by h − loss with it decreased
by h) / (2h)` with `h = hstep = 1e-4`, where the perturbation changes only
that single component of the raveled parameter (all others are unchanged),
and after the call the parameter state is value-equal to the original
(restored exactly).  The loss is the `self._loss(X, T)` closure as a function
of the parameter state. -/
theorem numerical_gradient_central_difference
    (loss : List NLayer → ℚ) (ps : List NLayer) (l : Nat) (hl : l < ps.length) :
    (∀ idx, idx < (getLayerD ps l).W.flatten.length →
      (numericalGradientW loss ps l).1.flatten[idx]? = some
        ((loss (setParamW ps l (reshapeLike (getLayerD ps l).W
            (perturb (getLayerD ps l).W.flatten idx hstep)))
          - loss (setParamW ps l (reshapeLike (getLayerD ps l).W
            (perturb (getLayerD ps l).W.flatten idx (-hstep))))) / (2 * hstep)))
    ∧ (∀ idx, idx < (getLayerD ps l).b.length →
      (numericalGradientB loss ps l).1[idx]? = some
        ((loss (setParamB ps l (perturb (getLayerD ps l).b idx hstep))
          - loss (setParamB ps l (perturb (getLayerD ps l).b idx (-hstep))))
          / (2 * hstep)))
    ∧ (∀ (v : QVec) (idx j : Nat) (d : ℚ),
        (perturb v idx d)[j]? = if j = idx then v[j]?.map (· + d) else v[j]?)
    ∧ (numericalGradientW loss ps l).2 = ps
    ∧ (numericalGradientB loss ps l).2 = ps
    ∧ hstep = 1 / 10000 := by
  refine ⟨?_, ?_, ?_, ?_, ?_, rfl⟩
  · intro idx hidx
    rw [numericalGradientW_flatten, List.getElem?_map, List.getElem?_range hidx]
    rfl
  · intro idx hidx
    rw [numericalGradientB_fst, List.getElem?_map, List.getElem?_range hidx]
    rfl
  · exact fun v idx j d => perturb_getElem? v idx j d
  · exact numericalGradientW_snd loss ps l
  · exact numericalGradientB_snd loss ps l

theorem numerical_gradient_central_difference_witness :
    0 < psEx.length ∧
      (numericalGradientW lossEx psEx 0).2 = psEx ∧
      (numericalGradientB lossEx psEx 0).2 = psEx ∧
      (numericalGradientW lossEx psEx 0).1.flatten[0]? = some
        ((lossEx (setParamW psEx 0 (reshapeLike (getLayerD psEx 0).W
            (perturb (getLayerD psEx 0).W.flatten 0 hstep)))
          - lossEx (setParamW psEx 0 (reshapeLike (getLayerD psEx 0).W
            (perturb (getLayerD psEx 0).W.flatten 0 (-hstep))))) / (2 * hstep)) :=
  ⟨by decide,
    (numerical_gradient_central_difference lossEx psEx 0 (by decide)).2.2.2.1,
    (numerical_gradient_central_difference lossEx psEx 0 (by decide)).2.2.2.2.1,
    (numerical_gradient_central_difference lossEx psEx 0 (by decide)).1 0 (by decide)⟩

/-- Claim C3: neither gradient engine has a net side effect on the parameter
store: `numerical_gradient_all` returns the parameter state value-equal to
what it was before the call (every layer's `W` and `b`), and
`gradient_backpropagation` performs no parameter assignment at all, for every
input batch and target batch. -/
theorem gradient_engines_preserve_params (loss : List NLayer → ℚ) (ef : ℚ → ℚ)
    (act : Act) (ps : List NLayer) (X T : QMat) :
    (numericalGradientAll loss ps).2 = ps ∧
      (gradientBackpropagationState ef act ps X T).2 = ps :=
  ⟨numGradAllLoop_snd loss _ ps, rfl⟩

/-- Claim C4 counterexample: `ConvolutionNet.gradient_backpropagation` does
not return a gradient set: its body has no `return` statement, so the call
returns `None` (the gradients are only stored inside the layer objects). -/
theorem conv_gradient_backprop_returns_none :
    ¬ ∃ grads : List NLayer,
      (convGradientBackpropagation [clEx] [[1]] [[1]]).1 = some grads := by
  rintro ⟨grads, h⟩
  rw [show (convGradientBackpropagation [clEx] [[1]] [[1]]).1 = none from rfl] at h
  exact Option.noConfusion h

/-- Claim C4 (amended): `SGDNeuralNet.numerical_gradient_all` and
`BackpropNeuralNet.gradient_backpropagation` return gradient sets aligned
one-to-one with the parameter store — one entry per layer in the same order,
each holding a `W` and a `b` shaped identically to that layer's parameters
(the numerical engine unconditionally; the analytic engine for every
well-shaped network of at least two layers on a nonempty batch).
`ConvolutionNet.gradient_backpropagation` returns no gradient set (`None`);
it stores each layer's gradients inside the layer instead. -/
theorem gradient_sets_aligned (loss : List NLayer → ℚ) (ef : ℚ → ℚ) (act : Act)
    (ps mids : List NLayer) (plast : NLayer) (X T : QMat)
    (d0 bsz dn : Nat) (ds : List Nat)
    (hmids : mids ≠ [])
    (hps : ParamsShape mids d0 ds)
    (hWlast : MatShape plast.W (ds.getLastD d0) dn) (hblast : plast.b.length = dn)
    (hX : MatShape X bsz d0) (hT : MatShape T bsz dn)
    (hbsz : 0 < bsz) (hd0 : 0 < d0) (hds : ∀ d ∈ ds, 0 < d) (hdn : 0 < dn) :
    ((numericalGradientAll loss ps).1.length = ps.length ∧
      ∀ l, l < ps.length →
        LayerAligned (getLayerD (numericalGradientAll loss ps).1 l) (getLayerD ps l)) ∧
    (∃ grads, gradient_backpropagation ef act (mids ++ [plast]) X T = some grads ∧
      List.Forall₂ LayerAligned grads (mids ++ [plast])) := by
  constructor
  · constructor
    · rw [numericalGradientAll_fst]
      simp
    · intro l hl
      rw [numericalGradientAll_getLayerD loss ps l hl]
      exact gradLayerAt_aligned loss ps l
  · exact gradient_backpropagation_aligned ef act mids plast X T d0 bsz dn ds
      hmids hps hWlast hblast hX hT hbsz hd0 hds hdn

theorem gradient_sets_aligned_witness :
    ((numericalGradientAll lossEx psEx).1.length = psEx.length) ∧
    (∃ grads, gradient_backpropagation efEx Act.relu (midsEx ++ [plastEx]) XEx TEx =
        some grads ∧ List.Forall₂ LayerAligned grads (midsEx ++ [plastEx])) :=
  (fun h => ⟨h.1.1, h.2⟩)
    (gradient_sets_aligned lossEx efEx Act.relu psEx midsEx plastEx XEx TEx 2 1 2 [3]
      (by decide)
      (by simp [ParamsShape, MatShape, midsEx])
      (by simp [MatShape, plastEx])
      (by decide)
      (by simp [MatShape, XEx])
      (by simp [MatShape, TEx])
      (by decide) (by decide) (by decide) (by decide))

/-- Claim C5: `update_parameters` replaces every component of every layer's
weight matrix and bias vector by `old − learning_rate · gradient`
(elementwise), and applied to an all-zero gradient set it leaves the
parameters exactly unchanged. -/
theorem update_parameters_sgd_rule (lr : ℚ) (ps grads : List NLayer)
    (hlen : ps.length ≤ grads.length) :
    (∃ ps2, update_parameters lr ps grads = some ps2 ∧ ps2.length = ps.length ∧
      ∀ l, l < ps.length →
        (getLayerD ps2 l).W = zipWithMat (fun w g => w - lr * g) (getLayerD ps l).W
            (getLayerD grads l).W ∧
        (getLayerD ps2 l).b = List.zipWith (fun w g => w - lr * g) (getLayerD ps l).b
            (getLayerD grads l).b) ∧
    update_parameters lr ps (zeroGradsLike ps) = some ps := by
  constructor
  · obtain ⟨ps2, h1, h2, h3⟩ := update_parameters_spec lr ps grads hlen
    exact ⟨ps2, h1, h2, fun l hl => by rw [h3 l hl]; exact ⟨rfl, rfl⟩⟩
  · exact update_parameters_zero lr ps

theorem update_parameters_sgd_rule_witness :
    psEx.length ≤ gradsEx.length ∧
      (∃ ps2, update_parameters 2 psEx gradsEx = some ps2 ∧ ps2.length = psEx.length ∧
        ∀ l, l < psEx.length →
          (getLayerD ps2 l).W = zipWithMat (fun w g => w - 2 * g) (getLayerD psEx l).W
              (getLayerD gradsEx l).W ∧
          (getLayerD ps2 l).b = List.zipWith (fun w g => w - 2 * g) (getLayerD psEx l).b
              (getLayerD gradsEx l).b) ∧
      update_parameters 2 psEx (zeroGradsLike psEx) = some psEx :=
  ⟨by decide, (update_parameters_sgd_rule 2 psEx gradsEx (by decide)).1,
    (update_parameters_sgd_rule 2 psEx gradsEx (by decide)).2⟩

/-- Claim C6: encoding any 1-D label vector to one-hot form with
`_one_hot_encoding` (which fits the encoder, keeping the sorted distinct
category list) and decoding with `_one_hot_encoding_reverse` reproduces the
original label vector exactly. -/
theorem one_hot_round_trip (T : List Int) :
    one_hot_encoding_reverse (one_hot_encoding T).1 (one_hot_encoding T).2 = T := by
  simp only [one_hot_encoding, one_hot_encoding_reverse, List.map_map, Function.comp]
  exact map_id_of_mem T _ (fun t ht =>
    oneHot_argmax_getD (categoriesOf T) t (mem_categoriesOf ht) (nodup_categoriesOf T))

/-- Claim C7: `accuracy` returns the fraction of rows whose predicted arg-max
index equals the target arg-max index (denominator: the input row count);
it is exactly `1` when they agree in every row and exactly `0` when in no
row.  `ConvolutionNet.accuracy` computes the same fraction from its own
forward pass. -/
theorem forall2_map {α β γ δ : Type} {R : α → β → Prop} {S : γ → δ → Prop}
    (f : α → γ) (g : β → δ) (h : ∀ a b, R a b → S (f a) (g b)) :
    ∀ {l1 : List α} {l2 : List β}, List.Forall₂ R l1 l2 →
      List.Forall₂ S (l1.map f) (l2.map g)
  | _, _, List.Forall₂.nil => List.Forall₂.nil
  | _, _, List.Forall₂.cons h1 h2 => List.Forall₂.cons (h _ _ h1) (forall2_map f g h h2)

theorem accuracy_fraction (ef : ℚ → ℚ) (act : Act) (ps : List NLayer)
    (X Tq Y : QMat) (n : Nat)
    (hp : predictOnehot ef act ps X = some Y)
    (hX : X.length = n) (hY : Y.length = n) (hT : Tq.length = n) (hn : 0 < n) :
    SGDaccuracy ef act ps X Tq = some ((countMatches (Y.map argmaxIdx)
        (Tq.map argmaxIdx) : ℚ) / (n : ℚ)) ∧
    (List.Forall₂ (fun y t => argmaxIdx y = argmaxIdx t) Y Tq →
      SGDaccuracy ef act ps X Tq = some 1) ∧
    (List.Forall₂ (fun y t => argmaxIdx y ≠ argmaxIdx t) Y Tq →
      SGDaccuracy ef act ps X Tq = some 0) ∧
    (∀ layers : List CLayer, convForward layers X = Y →
      convAccuracy layers X Tq = (countMatches (Y.map argmaxIdx)
        (Tq.map argmaxIdx) : ℚ) / (n : ℚ)) := by
  have hbase : SGDaccuracy ef act ps X Tq = some ((countMatches (Y.map argmaxIdx)
      (Tq.map argmaxIdx) : ℚ) / (n : ℚ)) := by
    simp [SGDaccuracy, hp, accuracyOf, hX]
  refine ⟨hbase, ?_, ?_, ?_⟩
  · intro hall
    rw [hbase]
    have hc : countMatches (Y.map argmaxIdx) (Tq.map argmaxIdx) =
        (Y.map argmaxIdx).length :=
      countMatches_all (forall2_map argmaxIdx argmaxIdx (fun _ _ h => h) hall)
    rw [hc]
    simp [hY]
    rw [div_self (by exact_mod_cast Nat.pos_iff_ne_zero.mp hn)]
  · intro hnone
    rw [hbase]
    have hc : countMatches (Y.map argmaxIdx) (Tq.map argmaxIdx) = 0 :=
      countMatches_zero (forall2_map argmaxIdx argmaxIdx (fun _ _ h => h) hnone)
    rw [hc]
    simp
  · intro layers hconv
    simp [convAccuracy, accuracyOf, hconv, hX]

theorem accuracy_fraction_witness :
    SGDaccuracy efEx Act.relu accPsEx [[1, 0]] [[1, 0]] = some 1 := by
  have hYval : forward_last_classification efEx [[1, 0]] [[1, 0], [0, 1]] [0, 0] =
      [[2 / 3, 1 / 3]] := by
    norm_num [forward_last_classification, addBias, qmul, qcols, qcol, qdot,
      softmaxRow, maxVal, max_def, efEx, List.range_succ]
  have hp : predictOnehot efEx Act.relu accPsEx [[1, 0]] = some [[2 / 3, 1 / 3]] := by
    rw [show predictOnehot efEx Act.relu accPsEx [[1, 0]] =
      some (forward_last_classification efEx [[1, 0]] [[1, 0], [0, 1]] [0, 0]) from rfl, hYval]
  have harg : argmaxIdx [(2 : ℚ) / 3, 1 / 3] = argmaxIdx [(1 : ℚ), 0] := by
    norm_num [argmaxIdx, maxVal, max_def]
  exact (accuracy_fraction efEx Act.relu accPsEx [[1, 0]] [[1, 0]] [[2 / 3, 1 / 3]] 1
    hp rfl rfl rfl (by norm_num)).2.1
    (List.Forall₂.cons harg List.Forall₂.nil)

/-- Claim C8: when two adjacent layers of a `ConvolutionNet` have inconsistent
widths (a layer's output width differs from the input width declared by the
next layer), `_initialize_parameters` fails at initialisation with a
descriptive error, before any forward call (layer initialisation modelled
from the spec, as the layer classes are outside the given sources). -/
theorem conv_init_fails_fast (layers : List LayerSpec)
    (h : adjacentConsistent layers = false) :
    ∃ e, convInitializeParameters layers = Except.error e :=
  convInit_error_of_inconsistent layers h

theorem conv_init_fails_fast_witness :
    adjacentConsistent [⟨2, 3⟩, ⟨4, 5⟩] = false ∧
      ∃ e, convInitializeParameters [⟨2, 3⟩, ⟨4, 5⟩] = Except.error e :=
  ⟨by decide, conv_init_fails_fast [⟨2, 3⟩, ⟨4, 5⟩] (by decide)⟩

/-- Claim C9: `BackpropNeuralNet.gradient_backpropagation` is only defined for
networks of at least two layers: with `n_layers = 1` the output-layer step
indexes the empty cache `Z_intermediate[n_layers − 2]`, and the call fails
with an index error instead of returning a gradient set, for every input. -/
theorem backprop_needs_two_layers (ef : ℚ → ℚ) (act : Act) (ps : List NLayer)
    (X T : QMat) (h : ps.length = 1) :
    gradient_backpropagation ef act ps X T = none :=
  gradient_backpropagation_one_layer ef act ps X T h

theorem backprop_needs_two_layers_witness :
    gradient_backpropagation efEx Act.relu [⟨[[1]], [0]⟩] [[1]] [[1]] = none :=
  backprop_needs_two_layers efEx Act.relu [⟨[[1]], [0]⟩] [[1]] [[1]] (by decide)

/-- Claim C10: `select_minibatch` applied to an index draw of length
`batch_size` with every index below the dataset's row count (the contract of
`np.random.choice(train_size, batch_size)`, which samples with replacement)
returns minibatches of exactly `batch_size` rows whose entries are exactly
the indexed rows of `X` and `T` (so duplicates in the draw yield duplicate
samples, and the inputs are not modified). -/
theorem select_minibatch_rows (mask : List Nat) (X T : QMat) (bs : Nat)
    (hbs : mask.length = bs)
    (hX : ∀ i ∈ mask, i < X.length) (hT : ∀ i ∈ mask, i < T.length) :
    select_minibatch mask X T =
      some (mask.map (fun i => X.getD i []), mask.map (fun i => T.getD i [])) ∧
    (mask.map (fun i => X.getD i [])).length = bs ∧
    (mask.map (fun i => T.getD i [])).length = bs := by
  refine ⟨?_, by simp [hbs], by simp [hbs]⟩
  simp only [select_minibatch, rowsAt_some X mask hX, rowsAt_some T mask hT]

theorem select_minibatch_rows_witness :
    select_minibatch [0, 0, 1] [[1], [2]] [[3], [4]] =
      some ([0, 0, 1].map (fun i => [[(1 : ℚ)], [2]].getD i []),
        [0, 0, 1].map (fun i => [[(3 : ℚ)], [4]].getD i [])) ∧
    ([0, 0, 1].map (fun i => [[(1 : ℚ)], [2]].getD i [])).length = 3 ∧
    ([0, 0, 1].map (fun i => [[(3 : ℚ)], [4]].getD i [])).length = 3 :=
  select_minibatch_rows [0, 0, 1] [[1], [2]] [[3], [4]] 3 (by decide)
    (by decide) (by decide)
